import Mathlib

/-!
Verification of the UAV trajectory/telemetry analytics engine
(files `UAVDataProcessor` and `TrajectoryAnalyzer`).

Numbers: JS numbers are modelled by `ℚ` where the source only adds,
subtracts, multiplies, divides and compares (sample coordinates, times,
network qualities, errors), and by `ℝ` where `Math.sqrt` or `Math.atan2`
enter (distances, velocities, standard deviations, scores).  The values
`Math.max(...[]) = -Infinity` and `Math.min(...[]) = Infinity` produced by
spreading an empty array are modelled explicitly by the `JsExt` type.
-/

namespace UAV

/-- Flight phase of a telemetry sample (the source's `phase` field, the
string `waypoint` or `transit`). -/
inductive Phase where
  | waypoint
  | transit
  deriving DecidableEq

/-- A 3D point with rational coordinates, modelling a JS `{x, y, z}` object
or `[x, y, z]` array. -/
structure Pt3 where
  x : ℚ
  y : ℚ
  z : ℚ
  deriving DecidableEq

/-- One telemetry sample, the element shape of `position_data`.
`target`, `error` and `networkQuality` are optional in the source. -/
structure Sample where
  x : ℚ
  y : ℚ
  z : ℚ
  time : ℚ
  phase : Phase
  target : Option Pt3
  error : Option ℚ
  networkQuality : Option ℚ
  stabilized : Bool
  deriving DecidableEq

/-- Source `pos.networkQuality || 100`: JS `||` substitutes 100 both when
the field is absent and when it is `0` (zero is falsy in JS). -/
def getQuality (p : Sample) : ℚ :=
  match p.networkQuality with
  | none => 100
  | some q => if q = 0 then 100 else q

/-- The sample's position as a point triple (`[pos.x, pos.y, pos.z]`). -/
def Sample.pt (p : Sample) : Pt3 :=
  ⟨p.x, p.y, p.z⟩

/-- Source `TrajectoryAnalyzer.calculateMean` restricted to rational
inputs: 0 for an empty list, otherwise sum divided by length. -/
def meanQ (l : List ℚ) : ℚ :=
  if l.length = 0 then 0 else l.sum / l.length

/-! ## Network degradation detection (`UAVDataProcessor.detectNetworkDegradation`) -/

/-- Severity labels of a degradation event. -/
inductive Severity where
  | mild
  | moderate
  | severe
  deriving DecidableEq

/-- Source `UAVDataProcessor.classifyDegradationSeverity`. -/
def classifyDegradationSeverity (minQuality : ℚ) : Severity :=
  if minQuality < 30 then .severe
  else if minQuality < 50 then .moderate
  else .mild

/-- The mutable `degradationStart` record tracked while a degradation
window is open; `quality` is the running minimum quality of the window. -/
structure DegStart where
  index : ℕ
  time : ℚ
  quality : ℚ
  pos : Pt3
  deriving DecidableEq

/-- A `DegradationEvent` as pushed onto `events` by the source. -/
structure DegEvent where
  startIndex : ℕ
  endIndex : ℕ
  startTime : ℚ
  endTime : ℚ
  duration : ℚ
  minQuality : ℚ
  startPos : Pt3
  endPos : Pt3
  severity : Severity
  deriving DecidableEq

/-- The event pushed when a window opened at `d` closes at sample `p`
(index `i`). -/
def mkDegEvent (d : DegStart) (i : ℕ) (p : Sample) : DegEvent :=
  { startIndex := d.index
    endIndex := i
    startTime := d.time
    endTime := p.time
    duration := p.time - d.time
    minQuality := d.quality
    startPos := d.pos
    endPos := p.pt
    severity := classifyDegradationSeverity d.quality }

/-- One iteration of the `positions.forEach` body of
`detectNetworkDegradation`: threshold 70, minimum duration 2.0 s.
When the state is `none` and quality is below 70 a window opens (the
trailing minimum-update of the source compares the fresh quality with
itself, a no-op); when a window is open and quality is at least 70 the
window closes, emitting an event exactly when its duration reaches 2.0 s;
when a window is open and quality is still below 70 the running minimum is
updated. -/
def degStep (i : ℕ) (p : Sample) (st : Option DegStart) :
    List DegEvent × Option DegStart :=
  let q := getQuality p
  match st with
  | none =>
    if q < 70 then ([], some ⟨i, p.time, q, p.pt⟩) else ([], none)
  | some d =>
    if 70 ≤ q then
      (if 2 ≤ p.time - d.time then [mkDegEvent d i p] else [], none)
    else
      ([], some (if q < d.quality then { d with quality := q } else d))

/-- The `forEach` loop of `detectNetworkDegradation`, processing samples
from index `i` in state `st`; returns the emitted events in order together
with the final state. -/
def detectFrom : List Sample → ℕ → Option DegStart → List DegEvent × Option DegStart
  | [], _, st => ([], st)
  | p :: rest, i, st =>
    let r := degStep i p st
    let rs := detectFrom rest (i + 1) r.2
    (r.1 ++ rs.1, rs.2)

/-- Source `UAVDataProcessor.detectNetworkDegradation`: run the hysteresis
machine over the whole sample list; a window still open at the end emits
nothing. -/
def detectNetworkDegradation (ps : List Sample) : List DegEvent :=
  (detectFrom ps 0 none).1

/-- Running minimum of the qualities of `l` starting from `q0`, written
with the same comparison as the source's minimum update. -/
def winMin (q0 : ℚ) (l : List Sample) : ℚ :=
  l.foldl (fun m p => if getQuality p < m then getQuality p else m) q0

lemma detectFrom_nil (i : ℕ) (st : Option DegStart) : detectFrom [] i st = ([], st) := rfl

lemma detectFrom_cons (p : Sample) (l : List Sample) (i : ℕ) (st : Option DegStart) :
    detectFrom (p :: l) i st =
      ((degStep i p st).1 ++ (detectFrom l (i + 1) (degStep i p st).2).1,
       (detectFrom l (i + 1) (degStep i p st).2).2) := rfl

lemma detectFrom_append (xs ys : List Sample) (i : ℕ) (st : Option DegStart) :
    detectFrom (xs ++ ys) i st =
      ((detectFrom xs i st).1 ++
         (detectFrom ys (i + xs.length) (detectFrom xs i st).2).1,
       (detectFrom ys (i + xs.length) (detectFrom xs i st).2).2) := by
  induction xs generalizing i st with
  | nil => simp [detectFrom_nil]
  | cons p rest ih =>
    simp only [List.cons_append, detectFrom_cons, ih, List.length_cons, List.append_assoc]
    rw [show i + (rest.length + 1) = i + 1 + rest.length by omega]

lemma detectFrom_low (l : List Sample) (i : ℕ) (d : DegStart)
    (h : ∀ p ∈ l, getQuality p < 70) :
    detectFrom l i (some d) = ([], some ⟨d.index, d.time, winMin d.quality l, d.pos⟩) := by
  induction l generalizing i d with
  | nil => simp [detectFrom_nil, winMin]
  | cons p rest ih =>
    have hp : getQuality p < 70 := h p (List.mem_cons_self p rest)
    have hrest : ∀ q ∈ rest, getQuality q < 70 := fun q hq => h q (List.mem_cons_of_mem p hq)
    have hstep : degStep i p (some d) =
        ([], some (if getQuality p < d.quality then { d with quality := getQuality p } else d)) := by
      simp [degStep, not_le.2 hp]
    rw [detectFrom_cons, hstep]
    by_cases hq : getQuality p < d.quality
    · simp only [if_pos hq]
      rw [ih _ _ hrest]
      simp [winMin, hq]
    · simp only [if_neg hq]
      rw [ih _ _ hrest]
      simp [winMin, hq]

lemma detectFrom_high_none (l : List Sample) (i : ℕ)
    (h : ∀ p ∈ l, 70 ≤ getQuality p) :
    detectFrom l i none = ([], none) := by
  induction l generalizing i with
  | nil => simp [detectFrom_nil]
  | cons p rest ih =>
    have hp : 70 ≤ getQuality p := h p (List.mem_cons_self p rest)
    have hstep : degStep i p none = ([], none) := by
      simp [degStep, not_lt.2 hp]
    rw [detectFrom_cons, hstep]
    rw [ih _ fun q hq => h q (List.mem_cons_of_mem p hq)]
    simp

lemma degStep_state_none_of_high (i : ℕ) (p : Sample) (st : Option DegStart)
    (hp : 70 ≤ getQuality p) : (degStep i p st).2 = none := by
  cases st with
  | none => simp [degStep, not_lt.2 hp]
  | some d => simp [degStep, hp]

lemma detectFrom_state_none_of_last_high (l : List Sample) (i : ℕ)
    (st : Option DegStart)
    (h : ∀ p, l.getLast? = some p → 70 ≤ getQuality p) (hne : l ≠ []) :
    (detectFrom l i st).2 = none := by
  induction l generalizing i st with
  | nil => exact absurd rfl hne
  | cons p rest ih =>
    cases rest with
    | nil =>
      have hp : 70 ≤ getQuality p := h p (by simp)
      rw [detectFrom_cons, detectFrom_nil]
      exact degStep_state_none_of_high _ _ _ hp
    | cons q rest' =>
      have h' : ∀ a, (q :: rest').getLast? = some a → 70 ≤ getQuality a := by
        intro a ha
        exact h a (by rwa [List.getLast?_cons_cons])
      rw [detectFrom_cons]
      exact ih _ _ h' (by simp)

/-- Sample at time `t` with network quality `q`, used as concrete input. -/
def mkQSample (t q : ℚ) : Sample :=
  { x := 0, y := 0, z := 0, time := t, phase := .transit, target := none,
    error := some 0, networkQuality := some q, stabilized := true }

/-- C2: degradation detection is a two-state hysteresis machine with
threshold 70 and minimum duration 2.0 s.  Any contiguous window of
quality below 70 (first sample `w`, rest `ws`, entered from the idle
state because the sample before it, if any, has quality at least 70)
that is followed by a sample `r` of quality at least 70 contributes
exactly one `DegradationEvent` when its duration `r.time - w.time` is at
least 2.0 s — with start/end index and time of the window, minimum
quality over the window, and severity classified from that minimum — and
contributes zero events when the duration is shorter. -/
theorem degradation_window_hysteresis (pre ws post : List Sample) (w r : Sample)
    (hw : getQuality w < 70) (hws : ∀ p ∈ ws, getQuality p < 70)
    (hr : 70 ≤ getQuality r)
    (hpre : ∀ p, pre.getLast? = some p → 70 ≤ getQuality p) :
    detectNetworkDegradation (pre ++ (w :: ws) ++ r :: post) =
      detectNetworkDegradation pre ++
      ((if 2 ≤ r.time - w.time then
        [{ startIndex := pre.length, endIndex := pre.length + ws.length + 1,
           startTime := w.time, endTime := r.time, duration := r.time - w.time,
           minQuality := winMin (getQuality w) ws,
           startPos := w.pt, endPos := r.pt,
           severity := classifyDegradationSeverity (winMin (getQuality w) ws) }]
       else []) ++
      (detectFrom post (pre.length + ws.length + 2) none).1) := by
  have hst : (detectFrom pre 0 none).2 = none := by
    by_cases hpe : pre = []
    · subst hpe; rfl
    · exact detectFrom_state_none_of_last_high pre 0 none hpre hpe
  have hopen : degStep pre.length w none =
      ([], some ⟨pre.length, w.time, getQuality w, w.pt⟩) := by
    simp [degStep, hw]
  have hwin : detectFrom (w :: ws) pre.length none =
      ([], some ⟨pre.length, w.time, winMin (getQuality w) ws, w.pt⟩) := by
    rw [detectFrom_cons, hopen]
    dsimp only
    rw [detectFrom_low ws _ _ hws]
    simp [winMin]
  have hclose : degStep (pre.length + (ws.length + 1)) r
      (some ⟨pre.length, w.time, winMin (getQuality w) ws, w.pt⟩) =
      (if 2 ≤ r.time - w.time then
        [mkDegEvent ⟨pre.length, w.time, winMin (getQuality w) ws, w.pt⟩
          (pre.length + (ws.length + 1)) r]
       else [], none) := by
    simp [degStep, hr]
  have hrpost : detectFrom (r :: post) (pre.length + (ws.length + 1))
      (some ⟨pre.length, w.time, winMin (getQuality w) ws, w.pt⟩) =
      ((if 2 ≤ r.time - w.time then
          [mkDegEvent ⟨pre.length, w.time, winMin (getQuality w) ws, w.pt⟩
            (pre.length + (ws.length + 1)) r]
        else []) ++ (detectFrom post (pre.length + (ws.length + 1) + 1) none).1,
       (detectFrom post (pre.length + (ws.length + 1) + 1) none).2) := by
    rw [detectFrom_cons, hclose]
  unfold detectNetworkDegradation
  rw [List.append_assoc, detectFrom_append, hst]
  simp only [Nat.zero_add]
  rw [detectFrom_append, hwin]
  simp only [List.length_cons, List.nil_append]
  rw [hrpost]
  dsimp only
  rw [show pre.length + (ws.length + 1) + 1 = pre.length + ws.length + 2 by omega]
  rw [show pre.length + (ws.length + 1) = pre.length + ws.length + 1 by omega]
  simp [mkDegEvent]

/-- A 3-second dip to quality 20 yields exactly one severe event; a
1-second dip yields zero events. -/
theorem degradation_window_hysteresis_witness :
    detectNetworkDegradation ([mkQSample 0 100] ++
        (mkQSample 1 20 :: [mkQSample 2 20, mkQSample 3 20]) ++ mkQSample 4 90 :: []) =
      [{ startIndex := 1, endIndex := 4, startTime := 1, endTime := 4, duration := 3,
         minQuality := 20, startPos := ⟨0, 0, 0⟩, endPos := ⟨0, 0, 0⟩,
         severity := .severe }] ∧
    detectNetworkDegradation ([mkQSample 0 100] ++
        (mkQSample 1 60 :: []) ++ mkQSample 2 90 :: []) = [] := by
  constructor
  · rw [degradation_window_hysteresis _ _ _ _ _ (by decide) (by decide) (by decide)
      (fun p hp => by simp only [List.getLast?_singleton, Option.some.injEq] at hp
                      subst hp; decide)]
    norm_num [detectNetworkDegradation, detectFrom_cons, detectFrom_nil, degStep,
      getQuality, mkQSample, winMin, mkDegEvent, classifyDegradationSeverity, Sample.pt]
  · rw [degradation_window_hysteresis _ _ _ _ _ (by decide) (by decide) (by decide)
      (fun p hp => by simp only [List.getLast?_singleton, Option.some.injEq] at hp
                      subst hp; decide)]
    norm_num [detectNetworkDegradation, detectFrom_cons, detectFrom_nil, degStep,
      getQuality, mkQSample, winMin, mkDegEvent, classifyDegradationSeverity, Sample.pt]

lemma detectFrom_events_endIndex (l : List Sample) (i : ℕ) (st : Option DegStart) :
    ∀ e ∈ (detectFrom l i st).1, ∃ j, e.endIndex = i + j ∧ j < l.length ∧
      ∀ hj : j < l.length, 70 ≤ getQuality (l.get ⟨j, hj⟩) := by
  induction l generalizing i st with
  | nil => intro e he; simp [detectFrom_nil] at he
  | cons p rest ih =>
    intro e he
    rw [detectFrom_cons] at he
    rcases List.mem_append.1 he with he | he
    · cases st with
      | none =>
        by_cases hq : getQuality p < 70 <;> simp [degStep, hq] at he
      | some d =>
        by_cases hq : 70 ≤ getQuality p
        · simp only [degStep, if_pos hq] at he
          by_cases hd : 2 ≤ p.time - d.time
          · simp only [if_pos hd, List.mem_singleton] at he
            subst he
            exact ⟨0, by simp [mkDegEvent], by simp, fun hj => hq⟩
          · simp [hd] at he
        · simp [degStep, hq] at he
    · obtain ⟨j, hje, hjlt, hquality⟩ := ih (i + 1) _ e he
      refine ⟨j + 1, by omega, by simp; omega, fun hj => ?_⟩
      exact hquality (by simpa using hj)

/-- C10: a flight that ends while degraded contributes zero events for
the trailing window — if every sample from index `k` on has quality
below 70, no emitted event reaches index `k`. -/
theorem trailing_degradation_no_event (ps : List Sample) (k : ℕ)
    (h : ∀ p ∈ ps.drop k, getQuality p < 70) :
    (detectNetworkDegradation ps).filter (fun e => k ≤ e.endIndex) = [] := by
  rw [List.filter_eq_nil_iff]
  intro e he
  obtain ⟨j, hje, hjlt, hq⟩ := detectFrom_events_endIndex ps 0 none e he
  simp only [decide_eq_true_eq]
  intro hk
  have hjk : k ≤ j := by omega
  have hlen : j - k < (ps.drop k).length := by
    rw [List.length_drop]; omega
  have hmem : ps.get ⟨j, hjlt⟩ ∈ ps.drop k := by
    have h1 : (ps.drop k)[j - k] = ps[k + (j - k)] := List.getElem_drop ps
    have h2 : ps.get ⟨j, hjlt⟩ = (ps.drop k)[j - k] := by
      rw [h1]
      simp only [List.get_eq_getElem]
      congr 1
      omega
    rw [h2]
    exact List.getElem_mem _
  exact absurd (hq hjlt) (not_le.2 (h _ hmem))

/-- Concrete instance of the trailing-window theorem: a flight that dips
below 70 at index 1 and never recovers produces no events at all past
that index. -/
theorem trailing_degradation_no_event_witness :
    (detectNetworkDegradation
        [mkQSample 0 100, mkQSample 1 50, mkQSample 5 40]).filter
      (fun e => 1 ≤ e.endIndex) = [] :=
  trailing_degradation_no_event _ 1 (by decide)

/-! ## Critical network threshold (`TrajectoryAnalyzer.findCriticalNetworkThreshold`) -/

/-- The sample's `error` field as a number.  The source reads `pos.error`
directly in several aggregations without checking presence (an absent
error would propagate NaN in JS); the model substitutes 0 there, and the
theorems about those paths only use samples whose `error` is present. -/
def errD (p : Sample) : ℚ :=
  p.error.getD 0

/-- Source `Math.floor((pos.networkQuality || 100) / 10) * 10`, the key of
the sample's quality-decile bin. -/
def decileOf (q : ℚ) : ℤ :=
  ⌊q / 10⌋ * 10

/-- The errors collected into the decile-`d` bin, in sample order. -/
def binErrors (ps : List Sample) (d : ℤ) : List ℚ :=
  (ps.filter (fun p => decileOf (getQuality p) = d)).map errD

/-- Insert a key if not already present (JS object property creation). -/
def addKey (x : ℤ) (l : List ℤ) : List ℤ :=
  if x ∈ l then l else l ++ [x]

/-- The set of decile keys occurring in the sample list. -/
def keysOf (ps : List Sample) : List ℤ :=
  ps.foldl (fun acc p => addKey (decileOf (getQuality p)) acc) []

/-- Insertion into an ascending list. -/
def insertAsc (x : ℤ) : List ℤ → List ℤ
  | [] => [x]
  | y :: ys => if x ≤ y then x :: y :: ys else y :: insertAsc x ys

/-- Ascending insertion sort.  JS `Object.entries` enumerates
integer-like keys in ascending numeric order, whatever the insertion
order was, so the bins are visited from low decile to high decile. -/
def sortAsc (l : List ℤ) : List ℤ :=
  l.foldr insertAsc []

/-- The `for (const [quality, errors] of Object.entries(qualityBins))`
loop: visits the present decile keys in ascending order with
`threshold = 100` and `baselineError = 0` initially; a 90 or 100 bin
updates the baseline, otherwise the first bin whose mean error exceeds
1.5 times the current baseline is returned (`break`). -/
def scanBins : List ℤ → (ℤ → List ℚ) → ℚ → ℚ
  | [], _, _ => 100
  | d :: rest, bins, baseline =>
    let avg := meanQ (bins d)
    if d = 100 ∨ d = 90 then scanBins rest bins avg
    else if baseline * 1.5 < avg then (d : ℚ)
    else scanBins rest bins baseline

/-- Source `TrajectoryAnalyzer.findCriticalNetworkThreshold`. -/
def findCriticalNetworkThreshold (ps : List Sample) : ℚ :=
  scanBins (sortAsc (keysOf ps)) (binErrors ps) 0

/-- Insertion into a descending list. -/
def insertDesc (x : ℤ) : List ℤ → List ℤ
  | [] => [x]
  | y :: ys => if y ≤ x then x :: y :: ys else y :: insertDesc x ys

/-- Descending insertion sort. -/
def sortDesc (l : List ℤ) : List ℤ :=
  l.foldr insertDesc []

/-- The critical-threshold computation as the specification words it
(for comparison with the source's version): the baseline is the mean
error of the samples of quality 90 to 100, the present deciles below 90
are scanned from high quality to low quality, and the first one whose
mean error exceeds 1.5 times that baseline is reported (100 when none
does). -/
def specCriticalThreshold (ps : List Sample) : ℚ :=
  let baseline := meanQ ((ps.filter (fun p => 90 ≤ getQuality p)).map errD)
  let lows := sortDesc ((keysOf ps).filter (fun d => d < 90))
  match lows.find? (fun d => baseline * 1.5 < meanQ (binErrors ps d)) with
  | some d => (d : ℚ)
  | none => 100

/-- Sample with network quality `q` and error `e` at the origin. -/
def mkQESample (q e : ℚ) : Sample :=
  { x := 0, y := 0, z := 0, time := 0, phase := .transit, target := none,
    error := some e, networkQuality := some q, stabilized := true }

/-- C8: on a flight with one sample of quality 95 and error 1 and one of
quality 20 and error 1, the source scans the decile bins in ascending key
order before the 90 to 100 baseline has been set, so the comparison uses
the initial baseline 0 and returns 20 — although the low-quality mean
error (1) does not exceed 1.5 times the 90 to 100 baseline (also 1), for
which the specified scan returns 100. -/
theorem criticalThreshold_code_vs_spec :
    findCriticalNetworkThreshold [mkQESample 95 1, mkQESample 20 1] = 20 ∧
    specCriticalThreshold [mkQESample 95 1, mkQESample 20 1] = 100 := by
  have h95 : decileOf (95 : ℚ) = 90 := by norm_num [decileOf]
  have h20 : decileOf (20 : ℚ) = 20 := by norm_num [decileOf]
  constructor
  · norm_num [findCriticalNetworkThreshold, keysOf, List.foldl_cons, List.foldl_nil,
      h95, h20, addKey, sortAsc, insertAsc, scanBins, binErrors, meanQ, errD,
      getQuality, mkQESample, List.filter_cons, List.filter_nil]
  · norm_num [specCriticalThreshold, keysOf, List.foldl_cons, List.foldl_nil,
      h95, h20, addKey, sortDesc, insertDesc, binErrors, meanQ, errD,
      getQuality, mkQESample, List.filter_cons, List.filter_nil, List.find?]

/-! ## Statistics over real numbers -/

/-- Source `TrajectoryAnalyzer.calculateMean`: 0 for an empty list,
otherwise the sum divided by the length. -/
noncomputable def meanR (l : List ℝ) : ℝ :=
  if l.length = 0 then 0 else l.sum / l.length

/-- Source `TrajectoryAnalyzer.calculateStandardDeviation`: 0 for an
empty list, otherwise the square root of the mean squared deviation
(population formula). -/
noncomputable def stddevR (l : List ℝ) : ℝ :=
  if l.length = 0 then 0
  else Real.sqrt (meanR (l.map (fun v => (v - meanR l) ^ 2)))

/-- The sum of squared deviations from the mean, the quantity the
correlation loop accumulates as `sumXSquared` / `sumYSquared`. -/
noncomputable def sumSqDev (l : List ℝ) : ℝ :=
  (l.map (fun v => (v - meanR l) * (v - meanR l))).sum

/-- Source `TrajectoryAnalyzer.calculateCorrelation`: returns 0 when the
lengths differ or the inputs are empty; otherwise a single loop
accumulates the centered product sum and the two centered square sums,
and the quotient is taken unless the denominator `sqrt(sumXSquared *
sumYSquared)` is 0 (in which case 0 is returned). -/
noncomputable def calculateCorrelation (x y : List ℝ) : ℝ :=
  if x.length ≠ y.length ∨ x.length = 0 then 0
  else
    let mx := meanR x
    let my := meanR y
    let acc := (x.zip y).foldl
      (fun (s : ℝ × ℝ × ℝ) p =>
        (s.1 + (p.1 - mx) * (p.2 - my),
         s.2.1 + (p.1 - mx) * (p.1 - mx),
         s.2.2 + (p.2 - my) * (p.2 - my))) (0, 0, 0)
    let den := Real.sqrt (acc.2.1 * acc.2.2)
    if den = 0 then 0 else acc.1 / den

lemma foldl_triple_sum (l : List (ℝ × ℝ)) (f g h : ℝ × ℝ → ℝ) (a b c : ℝ) :
    l.foldl (fun (s : ℝ × ℝ × ℝ) p => (s.1 + f p, s.2.1 + g p, s.2.2 + h p)) (a, b, c) =
      (a + (l.map f).sum, b + (l.map g).sum, c + (l.map h).sum) := by
  induction l generalizing a b c with
  | nil => simp
  | cons p t ih => simp [ih]; ring_nf; simp [add_assoc, add_comm, add_left_comm]

lemma sum_mul_self_nonneg (q : List (ℝ × ℝ)) (f : ℝ × ℝ → ℝ)
    (hq : ∀ p ∈ q, ∃ v, f p = v * v) : 0 ≤ (q.map f).sum := by
  apply List.sum_nonneg
  intro a ha
  obtain ⟨p, hp, rfl⟩ := List.mem_map.1 ha
  obtain ⟨v, hv⟩ := hq p hp
  rw [hv]
  exact mul_self_nonneg v

lemma list_cauchy_schwarz (l : List (ℝ × ℝ)) :
    ((l.map (fun p => p.1 * p.2)).sum) ^ 2 ≤
      (l.map (fun p => p.1 * p.1)).sum * (l.map (fun p => p.2 * p.2)).sum := by
  induction l with
  | nil => simp
  | cons a t ih =>
    have hSX : 0 ≤ (t.map (fun p => p.1 * p.1)).sum :=
      sum_mul_self_nonneg t _ (fun p _ => ⟨p.1, rfl⟩)
    have hSY : 0 ≤ (t.map (fun p => p.2 * p.2)).sum :=
      sum_mul_self_nonneg t _ (fun p _ => ⟨p.2, rfl⟩)
    simp only [List.map_cons, List.sum_cons]
    set A := a.1
    set B := a.2
    set S1 := (t.map (fun p => p.1 * p.2)).sum
    set SX := (t.map (fun p => p.1 * p.1)).sum
    set SY := (t.map (fun p => p.2 * p.2)).sum
    have hprod : 0 ≤ (A * B) ^ 2 * (SX * SY - S1 ^ 2) :=
      mul_nonneg (sq_nonneg _) (by linarith)
    have hX : 0 ≤ A * A * SY + B * B * SX := by
      have := mul_nonneg (mul_self_nonneg A) hSY
      have := mul_nonneg (mul_self_nonneg B) hSX
      linarith
    have hsq : (2 * A * B * S1) ^ 2 ≤ (A * A * SY + B * B * SX) ^ 2 := by
      nlinarith [sq_nonneg (A * A * SY - B * B * SX), hprod]
    have h2 : 2 * A * B * S1 ≤ A * A * SY + B * B * SX := by
      nlinarith [hsq, hX]
    nlinarith [ih, h2]

lemma zip_map_fst (x y : List ℝ) (h : x.length = y.length) (f : ℝ → ℝ) :
    (x.zip y).map (fun p => f p.1) = x.map f := by
  have : (x.zip y).map (fun p => f p.1) = ((x.zip y).map Prod.fst).map f := by
    simp [List.map_map, Function.comp]
  rw [this, List.map_fst_zip x y (le_of_eq h)]

lemma zip_map_snd (x y : List ℝ) (h : x.length = y.length) (f : ℝ → ℝ) :
    (x.zip y).map (fun p => f p.2) = y.map f := by
  have : (x.zip y).map (fun p => f p.2) = ((x.zip y).map Prod.snd).map f := by
    simp [List.map_map, Function.comp]
  rw [this, List.map_snd_zip x y (ge_of_eq h)]

/-- C7: the Pearson correlation returns exactly 0 when the lengths
differ, when the input is empty, and when either series has zero
variance (zero sum of squared deviations); for equal-length series the
result always lies in the closed interval from -1 to 1. -/
theorem correlation_guards_and_bounds (x y : List ℝ) :
    (x.length ≠ y.length → calculateCorrelation x y = 0) ∧
    (x.length = 0 → calculateCorrelation x y = 0) ∧
    (x.length = y.length → (sumSqDev x = 0 ∨ sumSqDev y = 0) →
      calculateCorrelation x y = 0) ∧
    (x.length = y.length → calculateCorrelation x y ∈ Set.Icc (-1 : ℝ) 1) := by
  refine ⟨fun h => by simp [calculateCorrelation, h],
          fun h => by simp [calculateCorrelation, h], ?_, ?_⟩
  all_goals intro hlen
  · intro hvar
    by_cases hx : x.length = 0
    · simp [calculateCorrelation, hx]
    · have hacc := foldl_triple_sum (x.zip y)
        (fun p => (p.1 - meanR x) * (p.2 - meanR y))
        (fun p => (p.1 - meanR x) * (p.1 - meanR x))
        (fun p => (p.2 - meanR y) * (p.2 - meanR y)) 0 0 0
      have hzx : ((x.zip y).map (fun p => (p.1 - meanR x) * (p.1 - meanR x))).sum
          = sumSqDev x := by
        have h := zip_map_fst x y hlen (fun v => (v - meanR x) * (v - meanR x))
        unfold sumSqDev
        exact congrArg List.sum h
      have hzy : ((x.zip y).map (fun p => (p.2 - meanR y) * (p.2 - meanR y))).sum
          = sumSqDev y := by
        have h := zip_map_snd x y hlen (fun v => (v - meanR y) * (v - meanR y))
        unfold sumSqDev
        exact congrArg List.sum h
      simp only [calculateCorrelation]
      rw [if_neg (by push_neg; exact ⟨hlen, hx⟩)]
      simp only [hacc, zero_add]
      rw [if_pos (by rw [hzx, hzy]; rcases hvar with hv | hv <;> simp [hv])]
  · by_cases hx : x.length = 0
    · norm_num [calculateCorrelation, hx, Set.mem_Icc]
    · have hacc := foldl_triple_sum (x.zip y)
        (fun p => (p.1 - meanR x) * (p.2 - meanR y))
        (fun p => (p.1 - meanR x) * (p.1 - meanR x))
        (fun p => (p.2 - meanR y) * (p.2 - meanR y)) 0 0 0
      simp only [calculateCorrelation]
      rw [if_neg (by push_neg; exact ⟨hlen, hx⟩)]
      simp only [hacc, zero_add]
      set N := ((x.zip y).map (fun p => (p.1 - meanR x) * (p.2 - meanR y))).sum with hN
      set SX := ((x.zip y).map (fun p => (p.1 - meanR x) * (p.1 - meanR x))).sum with hSX
      set SY := ((x.zip y).map (fun p => (p.2 - meanR y) * (p.2 - meanR y))).sum with hSY
      by_cases hden : Real.sqrt (SX * SY) = 0
      · rw [if_pos hden]
        norm_num [Set.mem_Icc]
      · rw [if_neg hden]
        have hSXnn : 0 ≤ SX :=
          sum_mul_self_nonneg (x.zip y) _ (fun p _ => ⟨p.1 - meanR x, rfl⟩)
        have hSYnn : 0 ≤ SY :=
          sum_mul_self_nonneg (x.zip y) _ (fun p _ => ⟨p.2 - meanR y, rfl⟩)
        have hcs : N ^ 2 ≤ SX * SY := by
          have h := list_cauchy_schwarz
            ((x.zip y).map (fun p => (p.1 - meanR x, p.2 - meanR y)))
          simpa [List.map_map, Function.comp, hN, hSX, hSY] using h
        have hdpos : 0 < Real.sqrt (SX * SY) :=
          lt_of_le_of_ne (Real.sqrt_nonneg _) (Ne.symm hden)
        have habs : |N| ≤ Real.sqrt (SX * SY) :=
          Real.abs_le_sqrt hcs
        rw [Set.mem_Icc]
        constructor
        · rw [le_div_iff₀ hdpos]
          have h1 := neg_abs_le N
          linarith [habs]
        · rw [div_le_one hdpos]
          linarith [le_abs_self N, habs]

/-- Concrete instances of the correlation guards: mismatched lengths give
0, a zero-variance first series gives 0, and a nondegenerate pair lies in
the interval from -1 to 1. -/
theorem correlation_guards_and_bounds_witness :
    calculateCorrelation [1, 2] [5] = 0 ∧
    calculateCorrelation [2, 2] [0, 1] = 0 ∧
    calculateCorrelation [0, 1, 2] [5, 1, 4] ∈ Set.Icc (-1 : ℝ) 1 := by
  refine ⟨(correlation_guards_and_bounds [1, 2] [5]).1 (by norm_num),
    (correlation_guards_and_bounds [2, 2] [0, 1]).2.2.1 (by norm_num) (Or.inl ?_),
    (correlation_guards_and_bounds [0, 1, 2] [5, 1, 4]).2.2.2 (by norm_num)⟩
  have hm : meanR [2, 2] = 2 := by norm_num [meanR]
  norm_num [sumSqDev, hm]

/-! ## Angle normalization (the inline while-loops of `analyzeTurns`) -/

/-- The value of JS `Math.atan2(y, x)` for finite real arguments: the
angle of the point `(x, y)` in the half-open interval from `-pi`
excluded to `pi` included.  (JS distinguishes a negative zero `y`, for
which `atan2(-0, x) = -pi` when `x < 0`; the reals have a single zero,
and the convention here is the one for `+0`.) -/
noncomputable def jsAtan2 (y x : ℝ) : ℝ :=
  if 0 < x then Real.arctan (y / x)
  else if x < 0 then
    (if 0 ≤ y then Real.arctan (y / x) + Real.pi else Real.arctan (y / x) - Real.pi)
  else
    (if 0 < y then Real.pi / 2 else if y < 0 then -(Real.pi / 2) else 0)

/-- Source `while (bearingChange > Math.PI) bearingChange -= 2 * Math.PI`. -/
noncomputable def wrapDown (v : ℝ) : ℝ :=
  if h : Real.pi < v then wrapDown (v - 2 * Real.pi) else v
termination_by (⌈(v - Real.pi) / (2 * Real.pi)⌉).toNat
decreasing_by
  have h2pi : (0:ℝ) < 2 * Real.pi := by positivity
  have hkey : (v - 2 * Real.pi - Real.pi) / (2 * Real.pi)
      = (v - Real.pi) / (2 * Real.pi) - 1 := by field_simp; ring
  rw [hkey, Int.ceil_sub_one]
  have hpos : (0:ℝ) < (v - Real.pi) / (2 * Real.pi) := div_pos (by linarith) h2pi
  have h1 : 0 < ⌈(v - Real.pi) / (2 * Real.pi)⌉ := Int.ceil_pos.2 hpos
  omega

/-- Source `while (bearingChange < -Math.PI) bearingChange += 2 * Math.PI`. -/
noncomputable def wrapUp (v : ℝ) : ℝ :=
  if h : v < -Real.pi then wrapUp (v + 2 * Real.pi) else v
termination_by (⌈(-Real.pi - v) / (2 * Real.pi)⌉).toNat
decreasing_by
  have h2pi : (0:ℝ) < 2 * Real.pi := by positivity
  have hkey : (-Real.pi - (v + 2 * Real.pi)) / (2 * Real.pi)
      = (-Real.pi - v) / (2 * Real.pi) - 1 := by field_simp; ring
  rw [hkey, Int.ceil_sub_one]
  have hpos : (0:ℝ) < (-Real.pi - v) / (2 * Real.pi) := div_pos (by linarith) h2pi
  have h1 : 0 < ⌈(-Real.pi - v) / (2 * Real.pi)⌉ := Int.ceil_pos.2 hpos
  omega

/-- The two consecutive while-loops of the source's bearing-change
normalization. -/
noncomputable def wrapAngle (v : ℝ) : ℝ :=
  wrapUp (wrapDown v)

lemma wrapDown_of_le (v : ℝ) (h : v ≤ Real.pi) : wrapDown v = v := by
  rw [wrapDown]
  exact dif_neg (not_lt.2 h)

lemma wrapUp_of_ge (v : ℝ) (h : -Real.pi ≤ v) : wrapUp v = v := by
  rw [wrapUp]
  exact dif_neg (not_lt.2 h)

lemma wrapDown_le (v : ℝ) : wrapDown v ≤ Real.pi := by
  induction v using wrapDown.induct with
  | case1 v h ih => rw [wrapDown, dif_pos h]; exact ih
  | case2 v h => rw [wrapDown, dif_neg h]; exact not_lt.1 h

lemma wrapUp_ge (v : ℝ) : -Real.pi ≤ wrapUp v := by
  induction v using wrapUp.induct with
  | case1 v h ih => rw [wrapUp, dif_pos h]; exact ih
  | case2 v h => rw [wrapUp, dif_neg h]; exact not_lt.1 h

lemma wrapUp_le (v : ℝ) (h : v ≤ Real.pi) : wrapUp v ≤ Real.pi := by
  induction v using wrapUp.induct with
  | case1 v hv ih =>
    rw [wrapUp, dif_pos hv]
    exact ih (by linarith [Real.pi_pos])
  | case2 v hv => rw [wrapUp, dif_neg hv]; exact h

/-- C6 (amended): the normalized bearing change lies in the closed
interval from `-pi` to `pi`; the lower endpoint is attained (see the
counterexample), so the interval cannot be sharpened to the half-open
one of the claim. -/
theorem wrapAngle_mem_Icc (v : ℝ) : wrapAngle v ∈ Set.Icc (-Real.pi) Real.pi := by
  unfold wrapAngle
  exact Set.mem_Icc.2 ⟨wrapUp_ge _, wrapUp_le _ (wrapDown_le v)⟩

/-- C6 (counterexample): for a 180-degree reversal — segment bearings
`atan2(0, -1) = pi` then `atan2(0, 1) = 0`, as produced by the sample
triplet `(1,0,0) -> (0,0,0) -> (1,0,0)` — the raw change is `-pi`, both
while-loops leave it untouched, and the result is exactly `-pi`, outside
the claimed half-open interval. -/
theorem wrapAngle_reversal_eq_neg_pi :
    wrapAngle (jsAtan2 0 1 - jsAtan2 0 (-1)) = -Real.pi ∧
    wrapAngle (jsAtan2 0 1 - jsAtan2 0 (-1)) ∉ Set.Ioc (-Real.pi) Real.pi := by
  have hpi := Real.pi_pos
  have h1 : jsAtan2 0 (-1) = Real.pi := by
    norm_num [jsAtan2]
  have h2 : jsAtan2 0 1 = 0 := by
    norm_num [jsAtan2]
  have h3 : wrapAngle ((0:ℝ) - Real.pi) = -Real.pi := by
    rw [show (0:ℝ) - Real.pi = -Real.pi by ring]
    unfold wrapAngle
    rw [wrapDown_of_le _ (by linarith), wrapUp_of_ge _ (by linarith)]
  rw [h1, h2, h3]
  exact ⟨rfl, by simp [Set.mem_Ioc]⟩

/-! ## Velocity and jitter analysis (`analyzeVelocity`, `calculateJitter`) -/

/-- A JS number extended with NaN and the infinities that
`Math.max(...[])` and `Math.min(...[])` produce when spread over an
empty array. -/
inductive JsExt where
  | negInf
  | posInf
  | nan
  | fin (x : ℝ)

/-- Whether a `JsExt` value is a finite number. -/
def JsExt.isFinite : JsExt → Bool
  | .fin _ => true
  | _ => false

/-- JS division of finite operands: NaN for `0/0`, a signed infinity for
a nonzero numerator over zero, the usual quotient otherwise. -/
noncomputable def jsDiv (a b : ℝ) : JsExt :=
  if b = 0 then
    (if a = 0 then .nan else if 0 < a then .posInf else .negInf)
  else .fin (a / b)

/-- JS `Math.max(...values)`: `-Infinity` for the empty list. -/
noncomputable def jsMaxR : List ℝ → JsExt
  | [] => .negInf
  | x :: xs => .fin (xs.foldl max x)

/-- JS `Math.min(...values)`: `Infinity` for the empty list. -/
noncomputable def jsMinR : List ℝ → JsExt
  | [] => .posInf
  | x :: xs => .fin (xs.foldl min x)

/-- The 3D Euclidean distance between two samples (the inline
`Math.sqrt(dx^2 + dy^2 + dz^2)` of the source). -/
noncomputable def dist3 (a b : Sample) : ℝ :=
  Real.sqrt (((b.x - a.x : ℚ) : ℝ) ^ 2 + ((b.y - a.y : ℚ) : ℝ) ^ 2 +
    ((b.z - a.z : ℚ) : ℝ) ^ 2)

/-- The `for (let i = 1; ...)` loop of `analyzeVelocity`: tracks the loop
index `i`, the `velocities` array and the `accelerations` array.  A pair
with nonpositive time delta is skipped.  After pushing a velocity, an
acceleration is pushed when `i > 1` and the array already held an
earlier velocity (`velocities.length > 1` post-push), using the
second-to-last velocity and the same time delta. -/
noncomputable def velAccAux : Sample → List Sample → ℕ → List ℝ → List ℝ → List ℝ × List ℝ
  | _, [], _, vels, accs => (vels, accs)
  | prev, curr :: rest, i, vels, accs =>
    let dt := curr.time - prev.time
    if 0 < dt then
      let vel := dist3 prev curr / ((dt : ℚ) : ℝ)
      let accs' := if 1 < i ∧ vels ≠ [] then
          accs ++ [(vel - vels.getLast?.getD 0) / ((dt : ℚ) : ℝ)]
        else accs
      velAccAux curr rest (i + 1) (vels ++ [vel]) accs'
    else
      velAccAux curr rest (i + 1) vels accs

/-- The velocity and acceleration profiles of a sample list. -/
noncomputable def velAccProfiles (ps : List Sample) : List ℝ × List ℝ :=
  match ps with
  | [] => ([], [])
  | p :: rest => velAccAux p rest 1 [] []

/-- Source `TrajectoryAnalyzer.calculateSmoothness`: the pairwise
absolute velocity changes of consecutive velocities. -/
noncomputable def velocityChanges : List ℝ → List ℝ
  | a :: b :: rest => |b - a| :: velocityChanges (b :: rest)
  | _ => []

/-- Source `TrajectoryAnalyzer.calculateSmoothness`: 1 for fewer than two
velocities, otherwise `max(0, 1 - meanAbsChange / meanVelocity)` with the
fallback 1 when the mean velocity is not positive. -/
noncomputable def calculateSmoothness (velocities : List ℝ) : ℝ :=
  if velocities.length < 2 then 1
  else
    let avgChange := meanR (velocityChanges velocities)
    let avgVel := meanR velocities
    if 0 < avgVel then max 0 (1 - avgChange / avgVel) else 1

/-- The result object of `TrajectoryAnalyzer.analyzeVelocity`. -/
structure VelocityAnalysis where
  averageVelocity : ℝ
  maxVelocity : JsExt
  minVelocity : JsExt
  velocityVariation : ℝ
  averageAcceleration : ℝ
  maxAcceleration : JsExt
  velocityProfile : List ℝ
  accelerationProfile : List ℝ
  smoothnessIndex : ℝ

/-- Source `TrajectoryAnalyzer.analyzeVelocity`. -/
noncomputable def analyzeVelocity (ps : List Sample) : VelocityAnalysis :=
  let va := velAccProfiles ps
  { averageVelocity := meanR va.1
    maxVelocity := jsMaxR va.1
    minVelocity := jsMinR va.1
    velocityVariation := stddevR va.1
    averageAcceleration := meanR va.2
    maxAcceleration := jsMaxR va.2
    velocityProfile := va.1
    accelerationProfile := va.2
    smoothnessIndex := calculateSmoothness va.1 }

/-- Source `TrajectoryAnalyzer.calculateVelocityBetween`: 0 when the time
delta is not positive. -/
noncomputable def calculateVelocityBetween (a b : Sample) : ℝ :=
  if 0 < b.time - a.time then dist3 a b / ((b.time - a.time : ℚ) : ℝ) else 0

/-- The `for (let i = 2; ...)` loop of `calculateJitter`, walking triples
of consecutive samples and pushing `|v2 - v1| / dt` when `dt > 0`. -/
noncomputable def jitterAux : Sample → Sample → List Sample → List ℝ → List ℝ
  | _, _, [], accs => accs
  | pp, p, c :: rest, accs =>
    let v1 := calculateVelocityBetween pp p
    let v2 := calculateVelocityBetween p c
    let dt := c.time - p.time
    let accs' := if 0 < dt then accs ++ [|v2 - v1| / ((dt : ℚ) : ℝ)] else accs
    jitterAux p c rest accs'

/-- The jitter accelerations of a sample list. -/
noncomputable def jitterAccs (ps : List Sample) : List ℝ :=
  match ps with
  | a :: b :: rest => jitterAux a b rest []
  | _ => []

/-- The result object of `TrajectoryAnalyzer.calculateJitter`. -/
structure JitterMetrics where
  averageJitter : ℝ
  maxJitter : JsExt
  jitterIndex : ℝ

/-- Source `TrajectoryAnalyzer.calculateJitter`. -/
noncomputable def calculateJitter (ps : List Sample) : JitterMetrics :=
  { averageJitter := meanR (jitterAccs ps)
    maxJitter := jsMaxR (jitterAccs ps)
    jitterIndex := stddevR (jitterAccs ps) }

/-- C1 (counterexample): on a structurally valid single-sample flight the
velocity report's `maxVelocity` is `Math.max()` of an empty spread, which
is `-Infinity` (and `minVelocity` is `Infinity`); likewise `maxJitter`
for a two-sample flight — so the report does contain non-finite fields. -/
theorem velocity_fields_infinite_on_degenerate :
    (analyzeVelocity [mkQSample 0 100]).maxVelocity = JsExt.negInf ∧
    (analyzeVelocity [mkQSample 0 100]).minVelocity = JsExt.posInf ∧
    (analyzeVelocity [mkQSample 0 100]).maxVelocity.isFinite = false ∧
    (calculateJitter [mkQSample 0 100, mkQSample 1 100]).maxJitter = JsExt.negInf :=
  ⟨rfl, rfl, rfl, rfl⟩

/-- C1 (amended): with fewer than 2 samples the velocity metrics degrade
to empty profiles, zero averages and variation, and smoothness 1, but
the max/min fields are the JS infinities of an empty `Math.max` /
`Math.min`; with fewer than 3 samples the jitter metrics degrade to
average 0 and index 0, with `maxJitter = -Infinity`. -/
theorem degenerate_velocity_and_jitter (ps qs : List Sample)
    (h2 : ps.length < 2) (h3 : qs.length < 3) :
    analyzeVelocity ps =
      { averageVelocity := 0, maxVelocity := .negInf, minVelocity := .posInf,
        velocityVariation := 0, averageAcceleration := 0, maxAcceleration := .negInf,
        velocityProfile := [], accelerationProfile := [], smoothnessIndex := 1 } ∧
    calculateJitter qs =
      { averageJitter := 0, maxJitter := .negInf, jitterIndex := 0 } := by
  constructor
  · cases ps with
    | nil => rfl
    | cons p t =>
      cases t with
      | nil => rfl
      | cons q t' => simp only [List.length_cons] at h2; omega
  · cases qs with
    | nil => rfl
    | cons a t =>
      cases t with
      | nil => rfl
      | cons b t' =>
        cases t' with
        | nil => rfl
        | cons c t'' => simp only [List.length_cons] at h3; omega

/-- Concrete instance of the degenerate velocity/jitter theorem. -/
theorem degenerate_velocity_and_jitter_witness :
    analyzeVelocity [mkQSample 0 100] =
      { averageVelocity := 0, maxVelocity := .negInf, minVelocity := .posInf,
        velocityVariation := 0, averageAcceleration := 0, maxAcceleration := .negInf,
        velocityProfile := [], accelerationProfile := [], smoothnessIndex := 1 } ∧
    calculateJitter [mkQSample 0 100, mkQSample 1 100] =
      { averageJitter := 0, maxJitter := .negInf, jitterIndex := 0 } :=
  degenerate_velocity_and_jitter [mkQSample 0 100]
    [mkQSample 0 100, mkQSample 1 100] (by norm_num) (by norm_num)

/-! ## Turn analysis (`TrajectoryAnalyzer.analyzeTurns`) -/

/-- A turn pushed by `analyzeTurns`; `bearingChange` is in degrees,
`sharpness` is the absolute change in radians. -/
structure TurnEvent where
  index : ℕ
  position : Pt3
  bearingChange : ℝ
  sharpness : ℝ
  phase : Phase

/-- The `for (let i = 1; i < positions.length - 1; ...)` loop of
`analyzeTurns`: for each interior sample, the bearings of the incoming
and outgoing segments are `Math.atan2` of the horizontal deltas
(altitude ignored), the change is normalized by the two while-loops, a
turn is pushed when its magnitude exceeds 0.26 rad, and every normalized
change is pushed onto the bearing-change list. -/
noncomputable def turnsAux :
    Sample → Sample → List Sample → ℕ → List TurnEvent → List ℝ →
      List TurnEvent × List ℝ
  | _, _, [], _, turns, bearings => (turns, bearings)
  | prev, curr, next :: rest, i, turns, bearings =>
    let b1 := jsAtan2 ((curr.y - prev.y : ℚ) : ℝ) ((curr.x - prev.x : ℚ) : ℝ)
    let b2 := jsAtan2 ((next.y - curr.y : ℚ) : ℝ) ((next.x - curr.x : ℚ) : ℝ)
    let bc := wrapAngle (b2 - b1)
    let turns' := if 0.26 < |bc| then
        turns ++ [⟨i, curr.pt, bc * 180 / Real.pi, |bc|, curr.phase⟩]
      else turns
    turnsAux curr next rest (i + 1) turns' (bearings ++ [bc])

/-- The turn list and bearing-change list of a sample list. -/
noncomputable def analyzeTurnsLists (ps : List Sample) : List TurnEvent × List ℝ :=
  match ps with
  | prev :: curr :: rest => turnsAux prev curr rest 1 [] []
  | _ => ([], [])

/-- The result object of `TrajectoryAnalyzer.analyzeTurns`. -/
structure TurnAnalysis where
  totalTurns : ℕ
  sharpTurns : ℕ
  averageTurnRate : ℝ
  maxTurnRate : JsExt
  turns : List TurnEvent
  pathSmoothness : ℝ

/-- Source `TrajectoryAnalyzer.analyzeTurns`. -/
noncomputable def analyzeTurns (ps : List Sample) : TurnAnalysis :=
  let tb := analyzeTurnsLists ps
  { totalTurns := tb.1.length
    sharpTurns := (tb.1.filter (fun t => 45 < |t.bearingChange|)).length
    averageTurnRate := meanR (tb.2.map (fun b => |b|))
    maxTurnRate := jsMaxR (tb.2.map (fun b => |b|))
    turns := tb.1
    pathSmoothness := 1 / (1 + stddevR tb.2) }

/-! ## Trajectory efficiency (`TrajectoryAnalyzer.calculateEfficiency`) -/

/-- The 3D distance between two route waypoints. -/
noncomputable def distPt (a b : Pt3) : ℝ :=
  Real.sqrt (((b.x - a.x : ℚ) : ℝ) ^ 2 + ((b.y - a.y : ℚ) : ℝ) ^ 2 +
    ((b.z - a.z : ℚ) : ℝ) ^ 2)

/-- The accumulation loop for the actual path length over samples. -/
noncomputable def pathLenAuxS : Sample → List Sample → ℝ → ℝ
  | _, [], acc => acc
  | prev, curr :: rest, acc => pathLenAuxS curr rest (acc + dist3 prev curr)

/-- Actual flown path length: sum of consecutive sample distances. -/
noncomputable def pathLenS (ps : List Sample) : ℝ :=
  match ps with
  | [] => 0
  | p :: rest => pathLenAuxS p rest 0

/-- The accumulation loop for the ideal route length over waypoints. -/
noncomputable def pathLenAuxPt : Pt3 → List Pt3 → ℝ → ℝ
  | _, [], acc => acc
  | prev, curr :: rest, acc => pathLenAuxPt curr rest (acc + distPt prev curr)

/-- Ideal route length: sum of consecutive waypoint distances. -/
noncomputable def pathLenPt (qs : List Pt3) : ℝ :=
  match qs with
  | [] => 0
  | q :: rest => pathLenAuxPt q rest 0

/-- The result object of `TrajectoryAnalyzer.calculateEfficiency`
(`pathOptimality` is not modelled; no claim mentions it).
`efficiencyRatioVal` is the source's `efficiencyRatio` field,
`idealDistance / actualDistance`; in JS a zero actual distance yields
Infinity or NaN, while this model yields 0 — the theorems below only use
it with a positive actual distance. -/
structure EfficiencyAnalysis where
  actualDistance : ℝ
  idealDistance : ℝ
  efficiencyRatioVal : ℝ
  excessDistance : ℝ

/-- Source `TrajectoryAnalyzer.calculateEfficiency`. -/
noncomputable def calculateEfficiency (ps : List Sample) (seq : List Pt3) :
    EfficiencyAnalysis :=
  let actual := pathLenS ps
  let ideal := pathLenPt seq
  { actualDistance := actual
    idealDistance := ideal
    efficiencyRatioVal := ideal / actual
    excessDistance := actual - ideal }

/-! ## Stability metrics (`calculateStabilityMetrics` and helpers) -/

/-- The object returned by `calculatePhaseStability` for a nonempty
phase subset. -/
structure PhaseStability where
  stabilizationRate : ℝ
  averageError : ℝ
  count : ℕ

/-- Source `TrajectoryAnalyzer.calculatePhaseStability`: `null` (here
`none`) when no sample carries the phase. -/
noncomputable def calculatePhaseStability (ps : List Sample) (phase : Phase) :
    Option PhaseStability :=
  let phasePositions := ps.filter (fun p => p.phase = phase)
  if phasePositions.length = 0 then none
  else some
    { stabilizationRate :=
        ((phasePositions.filter (fun p => p.stabilized)).length : ℝ) /
          phasePositions.length
      averageError := meanR (phasePositions.map (fun p => ((errD p : ℚ) : ℝ)))
      count := phasePositions.length }

/-- Source `TrajectoryAnalyzer.calculateStabilityScore`: fixed weights
0.3 / 0.4 / 0.3 over the error score `max(0, 1 - avgError)`, the
stabilization rate, and the jitter score `max(0, 1 - jitterIndex)`,
scaled to 0 to 100. -/
noncomputable def calculateStabilityScore (ps : List Sample) : ℝ :=
  let avgError := meanR (ps.map (fun p => ((errD p : ℚ) : ℝ)))
  let stabilizationRate := ((ps.filter (fun p => p.stabilized)).length : ℝ) / ps.length
  let jitter := calculateJitter ps
  let errorScore := max 0 (1 - avgError)
  let stabilizationScore := stabilizationRate
  let jitterScore := max 0 (1 - jitter.jitterIndex)
  (errorScore * 0.3 + stabilizationScore * 0.4 + jitterScore * 0.3) * 100

/-- The result object of `calculateStabilityMetrics`
(`stabilizationRate` is the source's `stabilizationRatio` field). -/
structure StabilityMetrics where
  stabilizationRate : ℝ
  jitterMetrics : JitterMetrics
  waypointStability : Option PhaseStability
  transitStability : Option PhaseStability
  overallStabilityScore : ℝ

/-- Source `TrajectoryAnalyzer.calculateStabilityMetrics`. -/
noncomputable def calculateStabilityMetrics (ps : List Sample) : StabilityMetrics :=
  { stabilizationRate := ((ps.filter (fun p => p.stabilized)).length : ℝ) / ps.length
    jitterMetrics := calculateJitter ps
    waypointStability := calculatePhaseStability ps .waypoint
    transitStability := calculatePhaseStability ps .transit
    overallStabilityScore := calculateStabilityScore ps }

/-! ## Flight phase analysis (`TrajectoryAnalyzer.analyzeFlightPhases`) -/

/-- The `dwellTimes` loop of `calculateWaypointDwellTime`: a new
waypoint is recognized when more than 1.0 s elapsed since the tracked
start, which then pushes the elapsed time and resets the start. -/
def dwellAux : ℚ → List Sample → List ℚ → List ℚ
  | _, [], acc => acc
  | start, p :: rest, acc =>
    if 1 < p.time - start then dwellAux p.time rest (acc ++ [p.time - start])
    else dwellAux start rest acc

/-- Source `TrajectoryAnalyzer.calculateWaypointDwellTime`: 0 for fewer
than two waypoint samples, otherwise the mean of the collected dwell
times. -/
noncomputable def calculateWaypointDwellTime (wps : List Sample) : ℝ :=
  if wps.length < 2 then 0
  else
    match wps with
    | [] => meanR []
    | p :: rest => meanR ((dwellAux p.time rest []).map (fun t => ((t : ℚ) : ℝ)))

/-- The speed collection loop of `calculateTransitSpeed`: only positive
speeds are kept. -/
noncomputable def speedsAux : Sample → List Sample → List ℝ → List ℝ
  | _, [], acc => acc
  | prev, curr :: rest, acc =>
    let s := calculateVelocityBetween prev curr
    speedsAux curr rest (if 0 < s then acc ++ [s] else acc)

/-- Source `TrajectoryAnalyzer.calculateTransitSpeed`. -/
noncomputable def calculateTransitSpeed (tps : List Sample) : ℝ :=
  if tps.length < 2 then 0
  else
    match tps with
    | [] => 0
    | p :: rest => meanR (speedsAux p rest [])

/-- Source `TrajectoryAnalyzer.calculateTransitSmoothness`: 1 for fewer
than three samples, otherwise `max(0, 1 - meanAcceleration)`; its
acceleration loop is the same computation as `calculateJitter`'s. -/
noncomputable def calculateTransitSmoothness (tps : List Sample) : ℝ :=
  if tps.length < 3 then 1
  else max 0 (1 - meanR (jitterAccs tps))

/-- The `waypointAnalysis` object of `analyzeFlightPhases`; its
`stabilizationRate` divides by the unguarded waypoint count (NaN when
the phase is empty, modelled by `jsDiv`). -/
structure WaypointAnalysis where
  count : ℕ
  averageError : ℝ
  averageDwellTime : ℝ
  stabilizationRate : JsExt

/-- The `transitAnalysis` object of `analyzeFlightPhases`. -/
structure TransitAnalysis where
  count : ℕ
  averageError : ℝ
  averageSpeed : ℝ
  smoothnessIndex : ℝ

/-- The result object of `analyzeFlightPhases` (`phaseTransitions` is
not modelled; no claim mentions it). -/
structure PhaseAnalysis where
  waypointAnalysis : WaypointAnalysis
  transitAnalysis : TransitAnalysis

/-- Source `TrajectoryAnalyzer.analyzeFlightPhases`. -/
noncomputable def analyzeFlightPhases (ps : List Sample) : PhaseAnalysis :=
  let wps := ps.filter (fun p => p.phase = .waypoint)
  let tps := ps.filter (fun p => p.phase = .transit)
  { waypointAnalysis :=
      { count := wps.length
        averageError := meanR (wps.map (fun p => ((errD p : ℚ) : ℝ)))
        averageDwellTime := calculateWaypointDwellTime wps
        stabilizationRate :=
          jsDiv ((wps.filter (fun p => p.stabilized)).length) wps.length }
    transitAnalysis :=
      { count := tps.length
        averageError := meanR (tps.map (fun p => ((errD p : ℚ) : ℝ)))
        averageSpeed := calculateTransitSpeed tps
        smoothnessIndex := calculateTransitSmoothness tps } }

/-! ## Quality assessment (`UAVDataProcessor.assessFlightQuality`) -/

/-- The flight record handed to the engine: the `position_data` samples
and the ideal route `sequence`. -/
structure FlightData where
  position_data : List Sample
  sequence : List Pt3

/-- The `detailed` part of the trajectory report, restricted to the
substructures the verified claims read (`pathDeviation`,
`altitudeProfile` and `networkCorrelation` are not modelled). -/
structure TrajectoryDetail where
  velocityAnalysis : VelocityAnalysis
  turnAnalysis : TurnAnalysis
  stabilityMetrics : StabilityMetrics
  phaseAnalysis : PhaseAnalysis
  trajectoryEfficiency : EfficiencyAnalysis

/-- Source `TrajectoryAnalyzer.analyzeTrajectory`, restricted to the
modelled substructures. -/
noncomputable def analyzeTrajectory (d : FlightData) : TrajectoryDetail :=
  { velocityAnalysis := analyzeVelocity d.position_data
    turnAnalysis := analyzeTurns d.position_data
    stabilityMetrics := calculateStabilityMetrics d.position_data
    phaseAnalysis := analyzeFlightPhases d.position_data
    trajectoryEfficiency := calculateEfficiency d.position_data d.sequence }

/-- Letter grades. -/
inductive Grade where
  | A
  | B
  | C
  | D
  | F
  deriving DecidableEq

/-- Source `UAVDataProcessor.assignQualityGrade`: A for at least 90, B
for at least 80, C for at least 70, D for at least 60, else F. -/
noncomputable def assignQualityGrade (score : ℝ) : Grade :=
  if 90 ≤ score then .A
  else if 80 ≤ score then .B
  else if 70 ≤ score then .C
  else if 60 ≤ score then .D
  else .F

/-- JS `Math.round`: half-up rounding, the floor of `x + 1/2`. -/
noncomputable def jsRound (x : ℝ) : ℤ :=
  ⌊x + 1 / 2⌋

/-- Source `UAVDataProcessor.calculateAccuracyScore`: 100 when no sample
carries an error, otherwise `max(0, 100 - avgError * 1000)`. -/
noncomputable def calculateAccuracyScore (ps : List Sample) : ℝ :=
  let errors : List ℚ := ps.filterMap (fun p => p.error)
  if errors.length = 0 then 100
  else max 0 (100 - meanR (errors.map (fun q : ℚ => (q : ℝ))) * 1000)

/-- Source `UAVDataProcessor.calculateNetworkAdaptabilityScore`: 100
unless the network-quality standard deviation exceeds 20, in which case
`max(0, 100 - stddev(errors) * 100)`. -/
noncomputable def calculateNetworkAdaptabilityScore (ps : List Sample) : ℝ :=
  let networkQualities := ps.map (fun p => ((getQuality p : ℚ) : ℝ))
  let qualityVariation := stddevR networkQualities
  if 20 < qualityVariation then
    max 0 (100 - stddevR (ps.map (fun p => ((errD p : ℚ) : ℝ))) * 100)
  else 100

/-- The `breakdown` object of the quality assessment. -/
structure QualityBreakdown where
  accuracy : ℤ
  stability : ℤ
  efficiency : ℤ
  adaptability : ℤ

/-- The quality assessment (`improvements` is not modelled; no claim
mentions it). -/
structure QualityAssessment where
  overallScore : ℤ
  breakdown : QualityBreakdown
  grade : Grade

/-- Source `UAVDataProcessor.assessFlightQuality`: weights 0.3 / 0.25 /
0.25 / 0.2 over accuracy, the report's overall stability score, 100
times the report's efficiency ratio, and adaptability; the reported
`overallScore` is `Math.round` of the composite, while `grade` is
computed from the composite before rounding. -/
noncomputable def assessFlightQuality (d : FlightData) (report : TrajectoryDetail) :
    QualityAssessment :=
  let accuracyScore := calculateAccuracyScore d.position_data
  let stabilityScore := report.stabilityMetrics.overallStabilityScore
  let efficiencyScore := report.trajectoryEfficiency.efficiencyRatioVal * 100
  let adaptabilityScore := calculateNetworkAdaptabilityScore d.position_data
  let overallScore := accuracyScore * 0.3 + stabilityScore * 0.25 +
    efficiencyScore * 0.25 + adaptabilityScore * 0.2
  { overallScore := jsRound overallScore
    breakdown :=
      { accuracy := jsRound accuracyScore
        stability := jsRound stabilityScore
        efficiency := jsRound efficiencyScore
        adaptability := jsRound adaptabilityScore }
    grade := assignQualityGrade overallScore }

/-! ## Theorems on phase reporting, scoring and grading -/

/-- C9 (amended): for a phase with zero matching samples the stability
metrics' per-phase breakdown (`calculatePhaseStability`, hence the
`waypointStability` / `transitStability` fields) is the absent marker
`null`; but the separate `phaseAnalysis` substructure still reports
numbers for an empty waypoint phase: average error 0 (the guarded empty
mean) and a NaN stabilization rate (an unguarded 0/0). -/
theorem phase_empty_reporting (ps : List Sample) (ph : Phase)
    (hph : ps.filter (fun p => p.phase = ph) = [])
    (hw : ps.filter (fun p => p.phase = Phase.waypoint) = []) :
    calculatePhaseStability ps ph = none ∧
    (calculateStabilityMetrics ps).waypointStability = none ∧
    (analyzeFlightPhases ps).waypointAnalysis.averageError = 0 ∧
    (analyzeFlightPhases ps).waypointAnalysis.stabilizationRate = JsExt.nan := by
  refine ⟨by simp [calculatePhaseStability, hph], ?_, ?_, ?_⟩
  · simp [calculateStabilityMetrics, calculatePhaseStability, hw]
  · simp [analyzeFlightPhases, hw, meanR]
  · simp [analyzeFlightPhases, hw, jsDiv]

/-- C9 (counterexample): on a flight whose only sample is in the transit
phase, the phase-analysis substructure reports a numeric zero average
error (indistinguishable from a perfect score) and a NaN stabilization
rate for the empty waypoint phase, instead of an absent marker. -/
theorem phase_empty_zero_average_error :
    (analyzeFlightPhases [mkQSample 0 100]).waypointAnalysis.averageError = 0 ∧
    (analyzeFlightPhases [mkQSample 0 100]).waypointAnalysis.stabilizationRate
      = JsExt.nan := by
  constructor
  · simp [analyzeFlightPhases, mkQSample, meanR]
  · simp [analyzeFlightPhases, mkQSample, jsDiv]

/-- Concrete instance of the phase-reporting theorem. -/
theorem phase_empty_reporting_witness :
    calculatePhaseStability [mkQSample 0 100] Phase.waypoint = none ∧
    (calculateStabilityMetrics [mkQSample 0 100]).waypointStability = none ∧
    (analyzeFlightPhases [mkQSample 0 100]).waypointAnalysis.averageError = 0 ∧
    (analyzeFlightPhases [mkQSample 0 100]).waypointAnalysis.stabilizationRate
      = JsExt.nan :=
  phase_empty_reporting [mkQSample 0 100] Phase.waypoint
    (by simp [mkQSample]) (by simp [mkQSample])

/-- C4 (amended): the reported `overallScore` is `Math.round` of the
weighted composite `0.3 accuracy + 0.25 stability + 0.25 efficiency +
0.2 adaptability`, but the reported letter grade is the grade mapping
applied to the composite before rounding (not to the reported rounded
score, from which it can differ when the composite lies within 0.5
below a grade boundary). -/
theorem overall_score_and_grade_formula (d : FlightData) (report : TrajectoryDetail) :
    (assessFlightQuality d report).overallScore =
      jsRound (calculateAccuracyScore d.position_data * 0.3 +
        report.stabilityMetrics.overallStabilityScore * 0.25 +
        report.trajectoryEfficiency.efficiencyRatioVal * 100 * 0.25 +
        calculateNetworkAdaptabilityScore d.position_data * 0.2) ∧
    (assessFlightQuality d report).grade =
      assignQualityGrade (calculateAccuracyScore d.position_data * 0.3 +
        report.stabilityMetrics.overallStabilityScore * 0.25 +
        report.trajectoryEfficiency.efficiencyRatioVal * 100 * 0.25 +
        calculateNetworkAdaptabilityScore d.position_data * 0.2) :=
  ⟨rfl, rfl⟩

/-- C5 (amended): the efficiency component of the quality assessment's
breakdown is `Math.round(100 * efficiencyRatio)` with no clamping, so it
exceeds 100 whenever the ratio exceeds 1.005. -/
theorem efficiency_component_unclamped (d : FlightData) (report : TrajectoryDetail) :
    (assessFlightQuality d report).breakdown.efficiency =
      jsRound (report.trajectoryEfficiency.efficiencyRatioVal * 100) :=
  rfl

/-- Sample on the x-axis used by the concrete shortcut flight. -/
def cexSample (x t : ℚ) : Sample :=
  { x := x, y := 0, z := 0, time := t, phase := .transit, target := none,
    error := some 0, networkQuality := some 100, stabilized := true }

/-- A flight whose actual path (length 2) is much shorter than its ideal
route (length 3 + 4 = 7): the efficiency ratio is 3.5. -/
def shortcutFlight : FlightData :=
  { position_data := [cexSample 0 0, cexSample 1 1, cexSample 2 2]
    sequence := [⟨0, 0, 0⟩, ⟨0, 3, 0⟩, ⟨0, 3, 4⟩] }

lemma dist3_cex01 : dist3 (cexSample 0 0) (cexSample 1 1) = 1 := by
  norm_num [dist3, cexSample, Real.sqrt_one]

lemma dist3_cex12 : dist3 (cexSample 1 1) (cexSample 2 2) = 1 := by
  norm_num [dist3, cexSample, Real.sqrt_one]

lemma shortcut_actual : pathLenS shortcutFlight.position_data = 2 := by
  simp only [shortcutFlight, pathLenS, pathLenAuxS, dist3_cex01, dist3_cex12]
  norm_num

lemma shortcut_ideal : pathLenPt shortcutFlight.sequence = 7 := by
  have h9 : Real.sqrt 9 = 3 := by
    rw [show (9 : ℝ) = 3 ^ 2 by norm_num, Real.sqrt_sq (by norm_num : (0:ℝ) ≤ 3)]
  have h16 : Real.sqrt 16 = 4 := by
    rw [show (16 : ℝ) = 4 ^ 2 by norm_num, Real.sqrt_sq (by norm_num : (0:ℝ) ≤ 4)]
  have d1 : distPt ⟨0, 0, 0⟩ ⟨0, 3, 0⟩ = 3 := by
    norm_num [distPt]
    exact h9
  have d2 : distPt ⟨0, 3, 0⟩ ⟨0, 3, 4⟩ = 4 := by
    norm_num [distPt]
    exact h16
  simp only [shortcutFlight, pathLenPt, pathLenAuxPt, d1, d2]
  norm_num

/-- C5 (counterexample): on the shortcut flight the efficiency ratio is
7/2, and the quality assessment reports the efficiency component 350 —
well above 100, refuting the claimed clamp to the interval 0 to 100. -/
theorem efficiency_score_exceeds_100 :
    (assessFlightQuality shortcutFlight
      (analyzeTrajectory shortcutFlight)).breakdown.efficiency = 350 ∧
    ¬ ((assessFlightQuality shortcutFlight
      (analyzeTrajectory shortcutFlight)).breakdown.efficiency ≤ 100) := by
  have heff : (assessFlightQuality shortcutFlight
      (analyzeTrajectory shortcutFlight)).breakdown.efficiency =
      jsRound (pathLenPt shortcutFlight.sequence /
        pathLenS shortcutFlight.position_data * 100) := rfl
  rw [heff, shortcut_actual, shortcut_ideal]
  have h350 : jsRound ((7:ℝ) / 2 * 100) = 350 := by norm_num [jsRound]
  rw [h350]
  norm_num

/-! ## Straight constant-velocity synthetic flights -/

/-- Sample `i` of a straight constant-velocity flight: position
`p0 + i • v`, time `i * τ`, full network quality, error `e`, stabilized. -/
def mkStraight (p0 v : Pt3) (τ e : ℚ) (i : ℕ) : Sample :=
  { x := p0.x + i * v.x, y := p0.y + i * v.y, z := p0.z + i * v.z,
    time := i * τ, phase := .transit, target := none, error := some e,
    networkQuality := some 100, stabilized := true }

/-- The samples of a straight flight, `n` of them starting at index `i`. -/
def straightList (p0 v : Pt3) (τ e : ℚ) : ℕ → ℕ → List Sample
  | _, 0 => []
  | i, n + 1 => mkStraight p0 v τ e i :: straightList p0 v τ e (i + 1) n

/-- Waypoint `i` of the ideal route tracing the same straight path. -/
def routePt (p0 v : Pt3) (i : ℕ) : Pt3 :=
  ⟨p0.x + i * v.x, p0.y + i * v.y, p0.z + i * v.z⟩

/-- The ideal route of a straight flight. -/
def routeList (p0 v : Pt3) : ℕ → ℕ → List Pt3
  | _, 0 => []
  | i, n + 1 => routePt p0 v i :: routeList p0 v (i + 1) n

/-- A full straight constant-velocity flight record with its route. -/
def straightFlight (p0 v : Pt3) (τ e : ℚ) (n : ℕ) : FlightData :=
  ⟨straightList p0 v τ e 0 n, routeList p0 v 0 n⟩

/-- The Euclidean norm of the per-step displacement. -/
noncomputable def vnorm (v : Pt3) : ℝ :=
  Real.sqrt ((v.x : ℝ) ^ 2 + (v.y : ℝ) ^ 2 + (v.z : ℝ) ^ 2)

lemma straight_dt (p0 v : Pt3) (τ e : ℚ) (i : ℕ) :
    (mkStraight p0 v τ e (i + 1)).time - (mkStraight p0 v τ e i).time = τ := by
  simp only [mkStraight]
  push_cast
  ring

lemma dist3_mkStraight (p0 v : Pt3) (τ e : ℚ) (i : ℕ) :
    dist3 (mkStraight p0 v τ e i) (mkStraight p0 v τ e (i + 1)) = vnorm v := by
  simp only [dist3, mkStraight, vnorm]
  congr 1
  push_cast
  ring

lemma distPt_route (p0 v : Pt3) (i : ℕ) :
    distPt (routePt p0 v i) (routePt p0 v (i + 1)) = vnorm v := by
  simp only [distPt, routePt, vnorm]
  congr 1
  push_cast
  ring

lemma getQuality_mkStraight (p0 v : Pt3) (τ e : ℚ) (i : ℕ) :
    getQuality (mkStraight p0 v τ e i) = 100 := by
  simp [getQuality, mkStraight]

lemma straightList_length (p0 v : Pt3) (τ e : ℚ) :
    ∀ (n i : ℕ), (straightList p0 v τ e i n).length = n := by
  intro n
  induction n with
  | zero => intro i; rfl
  | succ n ih => intro i; simp [straightList, ih]

lemma straightList_quality_mem (p0 v : Pt3) (τ e : ℚ) :
    ∀ (n i : ℕ), ∀ p ∈ straightList p0 v τ e i n, 70 ≤ getQuality p := by
  intro n
  induction n with
  | zero => intro i p hp; simp [straightList] at hp
  | succ n ih =>
    intro i p hp
    rcases List.mem_cons.1 hp with rfl | hp
    · rw [getQuality_mkStraight]; norm_num
    · exact ih (i + 1) p hp

lemma straightList_map_err (p0 v : Pt3) (τ e : ℚ) :
    ∀ (n i : ℕ), (straightList p0 v τ e i n).map (fun p => ((errD p : ℚ) : ℝ))
      = List.replicate n ((e : ℚ) : ℝ) := by
  intro n
  induction n with
  | zero => intro i; rfl
  | succ n ih =>
    intro i
    simp only [straightList, List.map_cons, ih, List.replicate_succ]
    rfl

lemma straightList_map_quality (p0 v : Pt3) (τ e : ℚ) :
    ∀ (n i : ℕ), (straightList p0 v τ e i n).map (fun p => ((getQuality p : ℚ) : ℝ))
      = List.replicate n (100 : ℝ) := by
  intro n
  induction n with
  | zero => intro i; rfl
  | succ n ih =>
    intro i
    simp only [straightList, List.map_cons, ih, List.replicate_succ,
      getQuality_mkStraight]
    norm_num

lemma straightList_filter_stab (p0 v : Pt3) (τ e : ℚ) :
    ∀ (n i : ℕ), (straightList p0 v τ e i n).filter (fun p => p.stabilized)
      = straightList p0 v τ e i n := by
  intro n
  induction n with
  | zero => intro i; rfl
  | succ n ih =>
    intro i
    simp only [straightList, List.filter_cons]
    rw [if_pos (by simp [mkStraight])]
    rw [ih]

lemma straightList_filterMap_error (p0 v : Pt3) (τ e : ℚ) :
    ∀ (n i : ℕ), (straightList p0 v τ e i n).filterMap (fun p => p.error)
      = List.replicate n e := by
  intro n
  induction n with
  | zero => intro i; rfl
  | succ n ih =>
    intro i
    simp only [straightList, List.filterMap_cons, mkStraight, ih, List.replicate_succ]

lemma meanR_replicate (n : ℕ) (c : ℝ) (hn : n ≠ 0) :
    meanR (List.replicate n c) = c := by
  simp only [meanR, List.length_replicate, List.sum_replicate, hn, if_false,
    nsmul_eq_mul]
  field_simp

lemma stddevR_replicate (n : ℕ) (c : ℝ) : stddevR (List.replicate n c) = 0 := by
  cases n with
  | zero => rfl
  | succ n =>
    have hm := meanR_replicate (n + 1) c (by omega)
    simp only [stddevR, List.length_replicate, List.map_replicate, hm]
    rw [if_neg (by omega)]
    rw [show (c - c) ^ 2 = 0 by ring]
    rw [meanR_replicate (n + 1) 0 (by omega), Real.sqrt_zero]

lemma vnorm_pos (v : Pt3) (hv : ¬(v.x = 0 ∧ v.y = 0 ∧ v.z = 0)) : 0 < vnorm v := by
  apply Real.sqrt_pos.2
  have hx2 : (0:ℝ) ≤ (v.x : ℝ) ^ 2 := sq_nonneg _
  have hy2 : (0:ℝ) ≤ (v.y : ℝ) ^ 2 := sq_nonneg _
  have hz2 : (0:ℝ) ≤ (v.z : ℝ) ^ 2 := sq_nonneg _
  by_cases hx : v.x = 0
  · by_cases hy : v.y = 0
    · have hz : v.z ≠ 0 := fun hz => hv ⟨hx, hy, hz⟩
      have : (0:ℝ) < (v.z : ℝ) ^ 2 := by
        have : (v.z : ℝ) ≠ 0 := by exact_mod_cast hz
        positivity
      linarith
    · have : (0:ℝ) < (v.y : ℝ) ^ 2 := by
        have : (v.y : ℝ) ≠ 0 := by exact_mod_cast hy
        positivity
      linarith
  · have : (0:ℝ) < (v.x : ℝ) ^ 2 := by
      have : (v.x : ℝ) ≠ 0 := by exact_mod_cast hx
      positivity
    linarith

lemma degradation_straight (p0 v : Pt3) (τ e : ℚ) (n : ℕ) :
    detectNetworkDegradation (straightList p0 v τ e 0 n) = [] := by
  unfold detectNetworkDegradation
  rw [detectFrom_high_none _ _ (straightList_quality_mem p0 v τ e n 0)]

lemma velAccAux_step_pos (prev curr : Sample) (rest : List Sample) (i : ℕ)
    (vels accs : List ℝ) (hdt : 0 < curr.time - prev.time) :
    velAccAux prev (curr :: rest) i vels accs =
      velAccAux curr rest (i + 1)
        (vels ++ [dist3 prev curr / ((curr.time - prev.time : ℚ) : ℝ)])
        (if 1 < i ∧ vels ≠ [] then
          accs ++ [(dist3 prev curr / ((curr.time - prev.time : ℚ) : ℝ)
            - vels.getLast?.getD 0) / ((curr.time - prev.time : ℚ) : ℝ)]
        else accs) := by
  simp only [velAccAux, if_pos hdt]

lemma velAccAux_straight (p0 v : Pt3) (τ e : ℚ) (hτ : 0 < τ) :
    ∀ (m i idx : ℕ) (vels accs : List ℝ), 2 ≤ idx →
      vels.getLast?.getD 0 = vnorm v / ((τ : ℚ) : ℝ) → vels ≠ [] →
      velAccAux (mkStraight p0 v τ e i) (straightList p0 v τ e (i + 1) m) idx vels accs =
        (vels ++ List.replicate m (vnorm v / ((τ : ℚ) : ℝ)),
         accs ++ List.replicate m 0) := by
  intro m
  induction m with
  | zero => intro i idx vels accs _ _ _; simp [straightList, velAccAux]
  | succ m ih =>
    intro i idx vels accs hidx hlast hne
    show velAccAux (mkStraight p0 v τ e i)
      (mkStraight p0 v τ e (i + 1) :: straightList p0 v τ e (i + 2) m) idx vels accs = _
    rw [velAccAux_step_pos _ _ _ _ _ _ (by rw [straight_dt]; exact hτ)]
    rw [if_pos ⟨by omega, hne⟩]
    rw [straight_dt, dist3_mkStraight, hlast, sub_self, zero_div]
    have hrec := ih (i + 1) (idx + 1) (vels ++ [vnorm v / ((τ : ℚ) : ℝ)]) (accs ++ [0])
      (by omega) (by simp) (by simp)
    rw [show i + 1 + 1 = i + 2 by omega] at hrec
    rw [hrec]
    simp [List.append_assoc, List.replicate_succ]

lemma velAccProfiles_straight (p0 v : Pt3) (τ e : ℚ) (hτ : 0 < τ) (m : ℕ) :
    velAccProfiles (straightList p0 v τ e 0 (m + 2)) =
      (List.replicate (m + 1) (vnorm v / ((τ : ℚ) : ℝ)), List.replicate m 0) := by
  show velAccAux (mkStraight p0 v τ e 0)
    (mkStraight p0 v τ e 1 :: straightList p0 v τ e 2 m) 1 [] [] = _
  have hd : dist3 (mkStraight p0 v τ e 0) (mkStraight p0 v τ e 1) = vnorm v := by
    have := dist3_mkStraight p0 v τ e 0
    simpa using this
  have ht : (mkStraight p0 v τ e 1).time - (mkStraight p0 v τ e 0).time = τ := by
    have := straight_dt p0 v τ e 0
    simpa using this
  rw [velAccAux_step_pos _ _ _ _ _ _ (by rw [ht]; exact hτ)]
  rw [if_neg (by simp)]
  rw [ht, hd]
  have hrec := velAccAux_straight p0 v τ e hτ m 1 2
    ([] ++ [vnorm v / ((τ : ℚ) : ℝ)]) [] (by omega) (by simp) (by simp)
  rw [show (1:ℕ) + 1 = 2 by omega] at hrec
  rw [hrec]
  simp [List.replicate_succ]

lemma cvb_straight (p0 v : Pt3) (τ e : ℚ) (hτ : 0 < τ) (i : ℕ) :
    calculateVelocityBetween (mkStraight p0 v τ e i) (mkStraight p0 v τ e (i + 1)) =
      vnorm v / ((τ : ℚ) : ℝ) := by
  unfold calculateVelocityBetween
  rw [straight_dt, dist3_mkStraight, if_pos hτ]

lemma jitterAux_straight (p0 v : Pt3) (τ e : ℚ) (hτ : 0 < τ) :
    ∀ (m i : ℕ) (accs : List ℝ),
      jitterAux (mkStraight p0 v τ e i) (mkStraight p0 v τ e (i + 1))
        (straightList p0 v τ e (i + 2) m) accs = accs ++ List.replicate m 0 := by
  intro m
  induction m with
  | zero => intro i accs; simp [straightList, jitterAux]
  | succ m ih =>
    intro i accs
    show jitterAux (mkStraight p0 v τ e i) (mkStraight p0 v τ e (i + 1))
      (mkStraight p0 v τ e (i + 2) :: straightList p0 v τ e (i + 3) m) accs = _
    simp only [jitterAux]
    rw [cvb_straight p0 v τ e hτ i]
    have hc2 : calculateVelocityBetween (mkStraight p0 v τ e (i + 1))
        (mkStraight p0 v τ e (i + 2)) = vnorm v / ((τ : ℚ) : ℝ) := by
      have := cvb_straight p0 v τ e hτ (i + 1)
      rwa [show i + 1 + 1 = i + 2 by omega] at this
    rw [hc2]
    have ht : (mkStraight p0 v τ e (i + 2)).time - (mkStraight p0 v τ e (i + 1)).time = τ := by
      have := straight_dt p0 v τ e (i + 1)
      rwa [show i + 1 + 1 = i + 2 by omega] at this
    rw [ht, if_pos hτ, sub_self, abs_zero, zero_div]
    have hrec := ih (i + 1) (accs ++ [0])
    rw [show i + 1 + 1 = i + 2 by omega, show i + 1 + 2 = i + 3 by omega] at hrec
    rw [hrec]
    simp [List.append_assoc, List.replicate_succ]

lemma jitterAccs_straight (p0 v : Pt3) (τ e : ℚ) (hτ : 0 < τ) (m : ℕ) :
    jitterAccs (straightList p0 v τ e 0 (m + 2)) = List.replicate m 0 := by
  show jitterAux (mkStraight p0 v τ e 0) (mkStraight p0 v τ e 1)
    (straightList p0 v τ e 2 m) [] = _
  have := jitterAux_straight p0 v τ e hτ m 0 []
  simpa using this

lemma seg_dx (p0 v : Pt3) (τ e : ℚ) (i : ℕ) :
    ((mkStraight p0 v τ e (i + 1)).x - (mkStraight p0 v τ e i).x : ℚ) = v.x := by
  simp only [mkStraight]
  push_cast
  ring

lemma seg_dy (p0 v : Pt3) (τ e : ℚ) (i : ℕ) :
    ((mkStraight p0 v τ e (i + 1)).y - (mkStraight p0 v τ e i).y : ℚ) = v.y := by
  simp only [mkStraight]
  push_cast
  ring

lemma wrapAngle_zero : wrapAngle 0 = 0 := by
  unfold wrapAngle
  rw [wrapDown_of_le 0 (le_of_lt Real.pi_pos),
    wrapUp_of_ge 0 (by linarith [Real.pi_pos])]

lemma turnsAux_straight (p0 v : Pt3) (τ e : ℚ) :
    ∀ (m i idx : ℕ) (turns : List TurnEvent) (bearings : List ℝ),
      turnsAux (mkStraight p0 v τ e i) (mkStraight p0 v τ e (i + 1))
        (straightList p0 v τ e (i + 2) m) idx turns bearings =
        (turns, bearings ++ List.replicate m 0) := by
  intro m
  induction m with
  | zero => intro i idx turns bearings; simp [straightList, turnsAux]
  | succ m ih =>
    intro i idx turns bearings
    show turnsAux (mkStraight p0 v τ e i) (mkStraight p0 v τ e (i + 1))
      (mkStraight p0 v τ e (i + 2) :: straightList p0 v τ e (i + 3) m)
      idx turns bearings = _
    simp only [turnsAux]
    have hdy2 : ((mkStraight p0 v τ e (i + 2)).y - (mkStraight p0 v τ e (i + 1)).y : ℚ)
        = v.y := by
      have := seg_dy p0 v τ e (i + 1)
      rwa [show i + 1 + 1 = i + 2 by omega] at this
    have hdx2 : ((mkStraight p0 v τ e (i + 2)).x - (mkStraight p0 v τ e (i + 1)).x : ℚ)
        = v.x := by
      have := seg_dx p0 v τ e (i + 1)
      rwa [show i + 1 + 1 = i + 2 by omega] at this
    rw [seg_dx p0 v τ e i, seg_dy p0 v τ e i, hdy2, hdx2, sub_self, wrapAngle_zero]
    rw [if_neg (by rw [abs_zero]; norm_num)]
    have hrec := ih (i + 1) (idx + 1) turns (bearings ++ [0])
    rw [show i + 1 + 1 = i + 2 by omega, show i + 1 + 2 = i + 3 by omega] at hrec
    rw [hrec]
    simp [List.append_assoc, List.replicate_succ]

lemma analyzeTurnsLists_straight (p0 v : Pt3) (τ e : ℚ) (m : ℕ) :
    analyzeTurnsLists (straightList p0 v τ e 0 (m + 2)) = ([], List.replicate m 0) := by
  show turnsAux (mkStraight p0 v τ e 0) (mkStraight p0 v τ e 1)
    (straightList p0 v τ e 2 m) 1 [] [] = _
  have := turnsAux_straight p0 v τ e m 0 1 [] []
  simpa using this

lemma pathLenAuxS_straight (p0 v : Pt3) (τ e : ℚ) :
    ∀ (m i : ℕ) (acc : ℝ),
      pathLenAuxS (mkStraight p0 v τ e i) (straightList p0 v τ e (i + 1) m) acc
        = acc + m * vnorm v := by
  intro m
  induction m with
  | zero => intro i acc; simp [straightList, pathLenAuxS]
  | succ m ih =>
    intro i acc
    show pathLenAuxS (mkStraight p0 v τ e i)
      (mkStraight p0 v τ e (i + 1) :: straightList p0 v τ e (i + 2) m) acc = _
    simp only [pathLenAuxS]
    rw [dist3_mkStraight]
    have hrec := ih (i + 1) (acc + vnorm v)
    rw [show i + 1 + 1 = i + 2 by omega] at hrec
    rw [hrec]
    push_cast
    ring

lemma pathLenS_straight (p0 v : Pt3) (τ e : ℚ) (m : ℕ) :
    pathLenS (straightList p0 v τ e 0 (m + 1)) = m * vnorm v := by
  show pathLenAuxS (mkStraight p0 v τ e 0) (straightList p0 v τ e 1 m) 0 = _
  have := pathLenAuxS_straight p0 v τ e m 0 0
  simpa using this

lemma pathLenAuxPt_route (p0 v : Pt3) :
    ∀ (m i : ℕ) (acc : ℝ),
      pathLenAuxPt (routePt p0 v i) (routeList p0 v (i + 1) m) acc
        = acc + m * vnorm v := by
  intro m
  induction m with
  | zero => intro i acc; simp [routeList, pathLenAuxPt]
  | succ m ih =>
    intro i acc
    show pathLenAuxPt (routePt p0 v i)
      (routePt p0 v (i + 1) :: routeList p0 v (i + 2) m) acc = _
    simp only [pathLenAuxPt]
    rw [distPt_route]
    have hrec := ih (i + 1) (acc + vnorm v)
    rw [show i + 1 + 1 = i + 2 by omega] at hrec
    rw [hrec]
    push_cast
    ring

lemma pathLenPt_route (p0 v : Pt3) (m : ℕ) :
    pathLenPt (routeList p0 v 0 (m + 1)) = m * vnorm v := by
  show pathLenAuxPt (routePt p0 v 0) (routeList p0 v 1 m) 0 = _
  have := pathLenAuxPt_route p0 v m 0 0
  simpa using this

lemma accuracy_straight (p0 v : Pt3) (τ e : ℚ) (n : ℕ) (hn : n ≠ 0) :
    calculateAccuracyScore (straightList p0 v τ e 0 n) = max 0 (100 - (e : ℝ) * 1000) := by
  simp only [calculateAccuracyScore]
  rw [straightList_filterMap_error p0 v τ e n 0]
  rw [List.map_replicate]
  rw [if_neg (by simp [hn])]
  rw [meanR_replicate n _ hn]

lemma stabilityScore_straight (p0 v : Pt3) (τ e : ℚ) (hτ : 0 < τ) (m : ℕ) :
    calculateStabilityScore (straightList p0 v τ e 0 (m + 2)) =
      (max 0 (1 - (e : ℝ)) * 0.3 + 0.7) * 100 := by
  simp only [calculateStabilityScore]
  rw [straightList_map_err p0 v τ e (m + 2) 0, meanR_replicate _ _ (by omega)]
  rw [straightList_filter_stab p0 v τ e (m + 2) 0]
  rw [straightList_length p0 v τ e (m + 2) 0]
  have hj : (calculateJitter (straightList p0 v τ e 0 (m + 2))).jitterIndex = 0 := by
    show stddevR (jitterAccs (straightList p0 v τ e 0 (m + 2))) = 0
    rw [jitterAccs_straight p0 v τ e hτ m, stddevR_replicate]
  rw [hj]
  have hr : (((m + 2 : ℕ) : ℝ)) / ((m + 2 : ℕ) : ℝ) = 1 :=
    div_self (Nat.cast_ne_zero.2 (by omega))
  rw [hr]
  rw [show (1 : ℝ) - 0 = 1 by norm_num, max_eq_right zero_le_one]
  ring

lemma adaptability_straight (p0 v : Pt3) (τ e : ℚ) (n : ℕ) :
    calculateNetworkAdaptabilityScore (straightList p0 v τ e 0 n) = 100 := by
  simp only [calculateNetworkAdaptabilityScore]
  rw [straightList_map_quality p0 v τ e n 0, stddevR_replicate]
  rw [if_neg (by norm_num)]

lemma effRatio_straight (p0 v : Pt3) (τ e : ℚ) (m : ℕ) (hm : m ≠ 0)
    (hv : 0 < vnorm v) :
    (calculateEfficiency (straightList p0 v τ e 0 (m + 1))
      (routeList p0 v 0 (m + 1))).efficiencyRatioVal = 1 := by
  show pathLenPt (routeList p0 v 0 (m + 1)) /
    pathLenS (straightList p0 v τ e 0 (m + 1)) = 1
  rw [pathLenPt_route, pathLenS_straight]
  exact div_self (mul_ne_zero (Nat.cast_ne_zero.2 hm) (ne_of_gt hv))

lemma assess_overallScore_def (d : FlightData) (report : TrajectoryDetail) :
    (assessFlightQuality d report).overallScore =
      jsRound (calculateAccuracyScore d.position_data * 0.3 +
        report.stabilityMetrics.overallStabilityScore * 0.25 +
        report.trajectoryEfficiency.efficiencyRatioVal * 100 * 0.25 +
        calculateNetworkAdaptabilityScore d.position_data * 0.2) :=
  rfl

lemma assess_grade_def (d : FlightData) (report : TrajectoryDetail) :
    (assessFlightQuality d report).grade =
      assignQualityGrade (calculateAccuracyScore d.position_data * 0.3 +
        report.stabilityMetrics.overallStabilityScore * 0.25 +
        report.trajectoryEfficiency.efficiencyRatioVal * 100 * 0.25 +
        calculateNetworkAdaptabilityScore d.position_data * 0.2) :=
  rfl

/-- C3: a straight constant-velocity flight — samples at `p0 + i • v`,
times `i * τ` for a positive step `τ` and a nonzero direction `v`, all
with network quality 100, error 0 and stabilized, whose ideal route
traces the same straight path — scores a perfect 100, grade A, with zero
degradation events and zero detected turns. -/
theorem straight_flight_perfect (p0 v : Pt3) (τ : ℚ) (n : ℕ)
    (hn : 2 ≤ n) (hτ : 0 < τ) (hv : ¬(v.x = 0 ∧ v.y = 0 ∧ v.z = 0)) :
    (assessFlightQuality (straightFlight p0 v τ 0 n)
      (analyzeTrajectory (straightFlight p0 v τ 0 n))).overallScore = 100 ∧
    (assessFlightQuality (straightFlight p0 v τ 0 n)
      (analyzeTrajectory (straightFlight p0 v τ 0 n))).grade = Grade.A ∧
    detectNetworkDegradation (straightFlight p0 v τ 0 n).position_data = [] ∧
    (analyzeTrajectory (straightFlight p0 v τ 0 n)).turnAnalysis.totalTurns = 0 := by
  obtain ⟨m, rfl⟩ : ∃ m, n = m + 2 := ⟨n - 2, by omega⟩
  have hvp := vnorm_pos v hv
  have hacc : calculateAccuracyScore (straightList p0 v τ 0 0 (m + 2)) = 100 := by
    rw [accuracy_straight p0 v τ 0 (m + 2) (by omega)]
    norm_num
  have hstab : calculateStabilityScore (straightList p0 v τ 0 0 (m + 2)) = 100 := by
    rw [stabilityScore_straight p0 v τ 0 hτ m]
    norm_num
  have hadapt := adaptability_straight p0 v τ 0 (m + 2)
  have heff : (calculateEfficiency (straightList p0 v τ 0 0 (m + 2))
      (routeList p0 v 0 (m + 2))).efficiencyRatioVal = 1 := by
    have h := effRatio_straight p0 v τ 0 (m + 1) (by omega) hvp
    norm_num at h ⊢
    exact h
  have hover : (assessFlightQuality (straightFlight p0 v τ 0 (m + 2))
      (analyzeTrajectory (straightFlight p0 v τ 0 (m + 2)))).overallScore =
      jsRound (calculateAccuracyScore (straightList p0 v τ 0 0 (m + 2)) * 0.3 +
        calculateStabilityScore (straightList p0 v τ 0 0 (m + 2)) * 0.25 +
        (calculateEfficiency (straightList p0 v τ 0 0 (m + 2))
          (routeList p0 v 0 (m + 2))).efficiencyRatioVal * 100 * 0.25 +
        calculateNetworkAdaptabilityScore (straightList p0 v τ 0 0 (m + 2)) * 0.2) :=
    rfl
  have hgrade : (assessFlightQuality (straightFlight p0 v τ 0 (m + 2))
      (analyzeTrajectory (straightFlight p0 v τ 0 (m + 2)))).grade =
      assignQualityGrade (calculateAccuracyScore (straightList p0 v τ 0 0 (m + 2)) * 0.3 +
        calculateStabilityScore (straightList p0 v τ 0 0 (m + 2)) * 0.25 +
        (calculateEfficiency (straightList p0 v τ 0 0 (m + 2))
          (routeList p0 v 0 (m + 2))).efficiencyRatioVal * 100 * 0.25 +
        calculateNetworkAdaptabilityScore (straightList p0 v τ 0 0 (m + 2)) * 0.2) :=
    rfl
  refine ⟨?_, ?_, ?_, ?_⟩
  · rw [hover, hacc, hstab, heff, hadapt]
    norm_num [jsRound]
  · rw [hgrade, hacc, hstab, heff, hadapt]
    norm_num [assignQualityGrade]
  · exact degradation_straight p0 v τ 0 (m + 2)
  · show (analyzeTurnsLists (straightList p0 v τ 0 0 (m + 2))).1.length = 0
    rw [analyzeTurnsLists_straight]
    rfl

/-- Concrete instance: a 10-sample unit-speed straight flight along the
x-axis is scored 100 / A with no degradation events and no turns. -/
theorem straight_flight_perfect_witness :
    (assessFlightQuality (straightFlight ⟨0, 0, 0⟩ ⟨1, 0, 0⟩ 1 0 10)
      (analyzeTrajectory (straightFlight ⟨0, 0, 0⟩ ⟨1, 0, 0⟩ 1 0 10))).overallScore = 100 ∧
    (assessFlightQuality (straightFlight ⟨0, 0, 0⟩ ⟨1, 0, 0⟩ 1 0 10)
      (analyzeTrajectory (straightFlight ⟨0, 0, 0⟩ ⟨1, 0, 0⟩ 1 0 10))).grade = Grade.A ∧
    detectNetworkDegradation (straightFlight ⟨0, 0, 0⟩ ⟨1, 0, 0⟩ 1 0 10).position_data = [] ∧
    (analyzeTrajectory (straightFlight ⟨0, 0, 0⟩ ⟨1, 0, 0⟩ 1 0 10)).turnAnalysis.totalTurns = 0 :=
  straight_flight_perfect ⟨0, 0, 0⟩ ⟨1, 0, 0⟩ 1 10 (by norm_num) (by norm_num)
    (by simp)

/-- C4 (counterexample): a straight flight with constant error 1/30 has
composite score exactly 89.75; the reported `overallScore` is the
rounded 90, but the reported grade is `B` — computed from the unrounded
89.75 — while the claimed mapping applied to the reported score 90 gives
`A`. -/
theorem grade_uses_unrounded_score :
    (assessFlightQuality (straightFlight ⟨0, 0, 0⟩ ⟨1, 0, 0⟩ 1 (1 / 30) 3)
      (analyzeTrajectory (straightFlight ⟨0, 0, 0⟩ ⟨1, 0, 0⟩ 1 (1 / 30) 3))).overallScore
      = 90 ∧
    (assessFlightQuality (straightFlight ⟨0, 0, 0⟩ ⟨1, 0, 0⟩ 1 (1 / 30) 3)
      (analyzeTrajectory (straightFlight ⟨0, 0, 0⟩ ⟨1, 0, 0⟩ 1 (1 / 30) 3))).grade
      = Grade.B ∧
    assignQualityGrade ((90 : ℝ)) = Grade.A := by
  have hvn : vnorm ⟨1, 0, 0⟩ = 1 := by
    norm_num [vnorm, Real.sqrt_one]
  have hvp : (0 : ℝ) < vnorm ⟨1, 0, 0⟩ := by rw [hvn]; norm_num
  have hacc : calculateAccuracyScore
      (straightList ⟨0, 0, 0⟩ ⟨1, 0, 0⟩ 1 (1 / 30) 0 3) = 200 / 3 := by
    rw [accuracy_straight ⟨0, 0, 0⟩ ⟨1, 0, 0⟩ 1 (1 / 30) 3 (by omega)]
    rw [show (((1 / 30 : ℚ)) : ℝ) = 1 / 30 by norm_num]
    rw [max_eq_right (by norm_num)]
    norm_num
  have hstab : calculateStabilityScore
      (straightList ⟨0, 0, 0⟩ ⟨1, 0, 0⟩ 1 (1 / 30) 0 3) = 99 := by
    have h := stabilityScore_straight ⟨0, 0, 0⟩ ⟨1, 0, 0⟩ 1 (1 / 30) (by norm_num) 1
    norm_num at h
    rw [h]
  have hadapt := adaptability_straight ⟨0, 0, 0⟩ ⟨1, 0, 0⟩ 1 (1 / 30) 3
  have heff : (calculateEfficiency (straightList ⟨0, 0, 0⟩ ⟨1, 0, 0⟩ 1 (1 / 30) 0 3)
      (routeList ⟨0, 0, 0⟩ ⟨1, 0, 0⟩ 0 3)).efficiencyRatioVal = 1 := by
    have h := effRatio_straight ⟨0, 0, 0⟩ ⟨1, 0, 0⟩ 1 (1 / 30) 2 (by omega) hvp
    norm_num at h ⊢
    exact h
  have hover : (assessFlightQuality (straightFlight ⟨0, 0, 0⟩ ⟨1, 0, 0⟩ 1 (1 / 30) 3)
      (analyzeTrajectory (straightFlight ⟨0, 0, 0⟩ ⟨1, 0, 0⟩ 1 (1 / 30) 3))).overallScore =
      jsRound (calculateAccuracyScore (straightList ⟨0, 0, 0⟩ ⟨1, 0, 0⟩ 1 (1 / 30) 0 3) * 0.3 +
        calculateStabilityScore (straightList ⟨0, 0, 0⟩ ⟨1, 0, 0⟩ 1 (1 / 30) 0 3) * 0.25 +
        (calculateEfficiency (straightList ⟨0, 0, 0⟩ ⟨1, 0, 0⟩ 1 (1 / 30) 0 3)
          (routeList ⟨0, 0, 0⟩ ⟨1, 0, 0⟩ 0 3)).efficiencyRatioVal * 100 * 0.25 +
        calculateNetworkAdaptabilityScore
          (straightList ⟨0, 0, 0⟩ ⟨1, 0, 0⟩ 1 (1 / 30) 0 3) * 0.2) :=
    rfl
  have hgrade : (assessFlightQuality (straightFlight ⟨0, 0, 0⟩ ⟨1, 0, 0⟩ 1 (1 / 30) 3)
      (analyzeTrajectory (straightFlight ⟨0, 0, 0⟩ ⟨1, 0, 0⟩ 1 (1 / 30) 3))).grade =
      assignQualityGrade
        (calculateAccuracyScore (straightList ⟨0, 0, 0⟩ ⟨1, 0, 0⟩ 1 (1 / 30) 0 3) * 0.3 +
        calculateStabilityScore (straightList ⟨0, 0, 0⟩ ⟨1, 0, 0⟩ 1 (1 / 30) 0 3) * 0.25 +
        (calculateEfficiency (straightList ⟨0, 0, 0⟩ ⟨1, 0, 0⟩ 1 (1 / 30) 0 3)
          (routeList ⟨0, 0, 0⟩ ⟨1, 0, 0⟩ 0 3)).efficiencyRatioVal * 100 * 0.25 +
        calculateNetworkAdaptabilityScore
          (straightList ⟨0, 0, 0⟩ ⟨1, 0, 0⟩ 1 (1 / 30) 0 3) * 0.2) :=
    rfl
  refine ⟨?_, ?_, ?_⟩
  · rw [hover, hacc, hstab, heff, hadapt]
    norm_num [jsRound]
  · rw [hgrade, hacc, hstab, heff, hadapt]
    norm_num [assignQualityGrade]
  · norm_num [assignQualityGrade]

end UAV
